import Mathlib

/-!
Verification of the VocaTrail Semantic Interpretation & Context-Board
Pipeline.

This file gives a shallow embedding, in Lean 4, of the pipeline code:

* `src/lib/promotionMapping.ts` — the promotion catalog, phrase
  normalization, Levenshtein-based fuzzy matcher and concept validation
  (`PROMOTION_MAPPINGS`, `normalizeInput`, `editDistance`,
  `calculateConfidence`, `findPromotionMatch`, `validateConcepts`);
* `src/lib/geminiService.ts` — the external (Gemini) interpreter adapter
  and the offline mock interpreter (`validateGeminiResponse`,
  `interpretWithGemini`, `getMockInterpretation`);
* `src/app/api/interpret/route.ts` — the server-side route that shapes
  the data the adapter consumes (`isAACConcept`, `isGeminiConceptResponse`
  and the success payload of `POST`);
* `src/lib/conceptToCard.ts` — concept-to-card mapping
  (`getTextForConcept`, `getSymbolForConcept`, `findMatchingCard`,
  `createTemporaryCard`, `mapConceptsToCards`,
  `getEssentialCommunicationCards`);
* `src/lib/contextBoardGenerator.ts` — the orchestrator
  (`generateContextBoard`).

Modelling conventions:

* JavaScript strings are Lean `String`s, processed as `List Char`;
  the code only ever feeds ASCII-relevant operations (`toLowerCase`,
  `trim`, the `\s`, `\d` regex classes), which we model on the ASCII
  range exactly as V8 behaves there.
* JavaScript numbers are `ℚ` (every numeric value the pipeline
  manipulates is exact in ℚ; `NaN` is modelled by `Option` where it can
  arise, namely `parseInt`).
* Dynamically typed values that can reach a validator are modelled by
  `JsValue`.
* `async` collaborator calls are modelled by passing the collaborator's
  result as an explicit argument: `generateContextBoard` receives the
  value produced by `await interpretWithGemini(phrase)`, and
  `interpretWithGemini` receives the body produced by the
  `/api/interpret` route (or `none` for any network / parse failure,
  which the code maps to `null`).
* `Date.now()` / `new Date().toISOString()` are modelled by an explicit
  `now : ℕ` argument; no claim observes these fields.
-/

/-- A runtime JavaScript value as it can appear in the `value` field of a
concept or inside a parsed external reply. -/
inductive JsValue where
  | str (s : String)
  | num (q : ℚ)
  | bool (b : Bool)
  | jsNull
  | undef
  deriving DecidableEq, Repr

/-- `AACConcept` from `src/types/index.ts`.  At runtime the `type` field is
an arbitrary string (validators check it against the whitelist), and the
`value` field an arbitrary value. -/
structure AACConcept where
  type : String
  value : JsValue
  deriving DecidableEq, Repr

/-- `Card` from `src/types/index.ts`.  `created_at` / `updated_at` are
never read by the pipeline and are omitted.  `temporary?: boolean` is
modelled as a `Bool` defaulting to `false` (absent); `concept_type` /
`concept_value` are the optional fields of `TemporaryCard`. -/
structure Card where
  id : ℤ
  text : String
  symbol : String
  category : String
  color : String
  temporary : Bool := false
  concept_type : Option String := none
  concept_value : Option JsValue := none
  deriving DecidableEq, Repr

/-- `SemanticInterpretation` from `src/types/index.ts`; `source` is the
literal string stored at runtime (the TS union is erased). -/
structure SemanticInterpretation where
  intent : String
  concepts : List AACConcept
  source : String
  confidence : ℚ
  deriving DecidableEq, Repr

/-- `PromotionMapping` from `src/types/index.ts`. -/
structure PromotionMapping where
  promotion_id : String
  patterns : List String
  concepts : List AACConcept
  aac_priority : String
  visual_hints : List String
  deriving DecidableEq, Repr

/-- `ContextBoard` from `src/types/index.ts`; timestamps are carried as
the rendering of the `now` tick (see the header). -/
structure ContextBoard where
  id : String
  name : String
  phrase : String
  interpretation : SemanticInterpretation
  cards : List Card
  created_at : String
  deriving DecidableEq, Repr

/-- `ContextBoardResult` from `src/lib/contextBoardGenerator.ts`. -/
structure ContextBoardResult where
  success : Bool
  board : Option ContextBoard
  error : Option String := none
  source : String
  deriving DecidableEq, Repr

/-! ### String helpers (JavaScript semantics) -/

/-- The JS `\s` class restricted to the whitespace the code can meet
(space, tab, newline, carriage return) — identical to
`Char.isWhitespace`. -/
def isJsWs (c : Char) : Bool :=
  c = ' ' || c = '\t' || c = '\n' || c = '\r'

/-- `String.prototype.toLowerCase` on the ASCII range. -/
def jsToLower (cs : List Char) : List Char :=
  cs.map Char.toLower

/-- `String.prototype.trim`. -/
def jsTrim (cs : List Char) : List Char :=
  ((cs.dropWhile isJsWs).reverse.dropWhile isJsWs).reverse

/-- Is `pre` a prefix of `l`? (scanning helper for `includes`). -/
def leadsWith : List Char → List Char → Bool
  | [], _ => true
  | _ :: _, [] => false
  | p :: ps, c :: cs => p = c && leadsWith ps cs

/-- `String.prototype.includes` — note `hay.includes("")` is `true`. -/
def jsIncludes (hay needle : List Char) : Bool :=
  match hay with
  | [] => leadsWith needle []
  | _ :: rest => leadsWith needle hay || jsIncludes rest needle

/-- `.replace(/[.,!?;:'"]/g, '')` from `normalizeInput`. -/
def stripPunct (cs : List Char) : List Char :=
  cs.filter fun c => !(c = '.' || c = ',' || c = '!' || c = '?' ||
                       c = ';' || c = ':' || c = '\'' || c = '"')

/-- `.replace(/\s+/g, ' ')` from `normalizeInput`: every whitespace run
becomes one space. -/
def collapseWs : List Char → List Char
  | [] => []
  | [c] => if isJsWs c then [' '] else [c]
  | a :: b :: t =>
    if isJsWs a then
      if isJsWs b then collapseWs (b :: t)
      else ' ' :: b :: collapseWs t
    else a :: collapseWs (b :: t)

/-- `normalizeInput` from `src/lib/promotionMapping.ts`: lowercase, trim,
strip the punctuation class, collapse whitespace runs — in exactly that
order. -/
def normalizeInput (s : String) : String :=
  ⟨collapseWs (stripPunct (jsTrim (jsToLower s.data)))⟩

/-! ### Levenshtein distance (`editDistance` from
`src/lib/promotionMapping.ts`) -/

/-- The inner `j` loop of the TS matrix construction: walk the remaining
characters of `a` left to right, carrying the diagonal cell
`matrix[i-1][j-1]`, the cell just written `matrix[i][j-1]`, and the tail
`matrix[i-1][j..]` of the previous row; emit the new row's cells. -/
def levRow (bc : Char) : List Char → ℕ → ℕ → List ℕ → List ℕ
  | [], _, _, _ => []
  | _ :: _, _, _, [] => []
  | ac :: as, diag, left, up :: prest =>
    let cost := if bc = ac then diag else min (min diag left) up + 1
    cost :: levRow bc as up cost prest

/-- One outer (`i`) loop iteration: from the row for the first `i-1`
characters of `b` produce the row for one more character `bc`
(`matrix[i][0] = i` is the first cell). -/
def levNextRow (aChars : List Char) (bc : Char) (prev : List ℕ) : List ℕ :=
  match prev with
  | [] => []
  | p0 :: prest => (p0 + 1) :: levRow bc aChars p0 (p0 + 1) prest

/-- `editDistance(a, b)`: the full row-by-row Levenshtein computation of
the source (matrix indexed `[i][j]` with `i` over `b`, `j` over `a`,
first row `matrix[0][j] = j`); the result is the last cell of the last
row. -/
def editDistance (a b : String) : ℕ :=
  let aChars := a.data
  (b.data.foldl (fun row bc => levNextRow aChars bc row)
      (List.range (aChars.length + 1))).getLastD 0

/-- `calculateConfidence` from `src/lib/promotionMapping.ts`.  Exact
match after normalization → 1; containment either way → 0.9; otherwise
`1 - editDistance/maxLength`. -/
def calculateConfidence (input pattern : String) : ℚ :=
  let ni := normalizeInput input
  let np := normalizeInput pattern
  if ni = np then 1
  else if jsIncludes ni.data np.data || jsIncludes np.data ni.data then 9/10
  else
    let distance := editDistance ni np
    let maxLength := max ni.data.length np.data.length
    1 - (distance : ℚ) / (maxLength : ℚ)

/-! ### The promotion catalog (`PROMOTION_MAPPINGS`) -/

/-- Shorthand for a string-valued concept. -/
def cS (t v : String) : AACConcept := ⟨t, .str v⟩

/-- Shorthand for a number-valued concept. -/
def cN (t : String) (v : ℚ) : AACConcept := ⟨t, .num v⟩

/-- `PROMOTION_MAPPINGS` from `src/lib/promotionMapping.ts`, transcribed
entry by entry in source order. -/
def PROMOTION_MAPPINGS : List PromotionMapping := [
  { promotion_id := "BOGO",
    patterns := ["buy one get one free", "buy 1 get 1 free", "bogo",
                 "b1g1", "buy one get one", "two for the price of one",
                 "2 for 1", "two for one"],
    concepts := [cS "action" "buy", cN "quantity" 2,
                 cS "payment" "pay_for_one", cS "benefit" "second_item_free"],
    aac_priority := "high",
    visual_hints := ["two_items", "pay_once", "free_item"] },
  { promotion_id := "HALF_PRICE",
    patterns := ["50% off", "50 percent off", "half price", "half off",
                 "50% discount"],
    concepts := [cS "benefit" "discount", cS "modifier" "half_price"],
    aac_priority := "high",
    visual_hints := ["half", "discount", "save_money"] },
  { promotion_id := "THREE_FOR_TWO",
    patterns := ["3 for 2", "3 for the price of 2", "three for two",
                 "three for the price of two", "buy 2 get 1 free",
                 "buy two get one free"],
    concepts := [cS "action" "buy", cN "quantity" 3,
                 cS "payment" "pay_for_two", cS "benefit" "third_item_free"],
    aac_priority := "high",
    visual_hints := ["three_items", "pay_twice", "free_item"] },
  { promotion_id := "QUARTER_OFF",
    patterns := ["25% off", "25 percent off", "quarter off", "25% discount"],
    concepts := [cS "benefit" "discount", cS "modifier" "quarter_off"],
    aac_priority := "medium",
    visual_hints := ["discount", "save_money"] },
  { promotion_id := "FREE_SHIPPING",
    patterns := ["free shipping", "free delivery", "no shipping cost",
                 "shipping free"],
    concepts := [cS "benefit" "free", cS "item" "shipping"],
    aac_priority := "medium",
    visual_hints := ["free", "delivery"] },
  { promotion_id := "BUY_MORE_SAVE_MORE",
    patterns := ["buy more save more", "the more you buy the more you save",
                 "bulk discount", "quantity discount"],
    concepts := [cS "action" "buy", cS "modifier" "more",
                 cS "benefit" "bigger_discount"],
    aac_priority := "medium",
    visual_hints := ["many_items", "save_more"] },
  { promotion_id := "CLEARANCE",
    patterns := ["clearance", "clearance sale", "final sale", "last chance",
                 "everything must go"],
    concepts := [cS "benefit" "big_discount", cS "modifier" "limited_time"],
    aac_priority := "medium",
    visual_hints := ["sale", "discount", "hurry"] },
  { promotion_id := "SECOND_HALF_OFF",
    patterns := ["second item half off", "second item 50% off",
                 "2nd item half price", "second one half off"],
    concepts := [cS "action" "buy", cN "quantity" 2,
                 cS "payment" "pay_one_and_half",
                 cS "benefit" "second_item_discount"],
    aac_priority := "high",
    visual_hints := ["two_items", "discount_second"] },
  { promotion_id := "FREE_GIFT",
    patterns := ["free gift", "free gift with purchase", "bonus gift",
                 "gift with purchase", "gwp"],
    concepts := [cS "action" "buy", cS "benefit" "free", cS "item" "gift"],
    aac_priority := "medium",
    visual_hints := ["gift", "free", "bonus"] },
  { promotion_id := "LIMITED_TIME",
    patterns := ["limited time offer", "limited time only", "today only",
                 "one day sale", "flash sale", "hurry ends soon"],
    concepts := [cS "benefit" "discount", cS "modifier" "limited_time"],
    aac_priority := "medium",
    visual_hints := ["clock", "hurry", "sale"] }
]

/-- The `bestMatch` accumulation of `findPromotionMatch`: fold the
catalog in order, keeping the single highest-confidence
`(mapping, confidence)` pair with strict improvement (ties keep the
first seen), ignoring candidates below the threshold. -/
def promoBestMatch (normalizedPhrase : String) (th : ℚ) :
    Option (PromotionMapping × ℚ) :=
  PROMOTION_MAPPINGS.foldl
    (fun best mapping =>
      mapping.patterns.foldl
        (fun best pattern =>
          let confidence := calculateConfidence normalizedPhrase pattern
          if th ≤ confidence then
            match best with
            | none => some (mapping, confidence)
            | some b => if b.2 < confidence then some (mapping, confidence)
                        else some b
          else best)
        best)
    none

/-- `findPromotionMatch` from `src/lib/promotionMapping.ts` (default
confidence threshold 0.7). -/
def findPromotionMatch (phrase : String) (th : ℚ := 7/10) :
    Option SemanticInterpretation :=
  (promoBestMatch (normalizeInput phrase) th).map fun b =>
    { intent := "purchase", concepts := b.1.concepts,
      source := "library", confidence := b.2 }

/-- `validateConcepts` from `src/lib/promotionMapping.ts`: every concept
must have a whitelisted type, a `quantity` value must be a number, and
no value may be `''`, `null` or `undefined`. -/
def validateConcepts (concepts : List AACConcept) : Bool :=
  concepts.all fun concept =>
    (concept.type = "action" || concept.type = "quantity" ||
     concept.type = "payment" || concept.type = "benefit" ||
     concept.type = "item" || concept.type = "modifier") &&
    (concept.type ≠ "quantity" ||
      match concept.value with | .num _ => true | _ => false) &&
    (match concept.value with
     | .str s => s ≠ ""
     | .jsNull => false
     | .undef => false
     | _ => true)

/-! ### The external interpreter adapter (`src/lib/geminiService.ts`)
and the server route (`src/app/api/interpret/route.ts`) -/

/-- `String(x)` for the values a concept can carry. -/
def jsValueToString (v : JsValue) : String :=
  match v with
  | .str s => s
  | .num q => if q.den = 1 then toString q.num
              else toString q.num ++ "/" ++ toString q.den
  | .bool b => if b then "true" else "false"
  | .jsNull => "null"
  | .undef => "undefined"

/-- The digit-run value used by `parseInt`: the leading digit run read
in base 10, `none` when there is none. -/
def digitsVal (cs : List Char) : Option ℕ :=
  let ds := cs.takeWhile Char.isDigit
  if ds.isEmpty then none
  else some (ds.foldl (fun a c => a * 10 + (c.toNat - '0'.toNat)) 0)

/-- `parseInt(s)` (radix 10): skip leading whitespace, optional sign,
then a leading digit run; `none` models `NaN`. -/
def jsParseInt (s : String) : Option ℤ :=
  match s.data.dropWhile isJsWs with
  | '-' :: rest => (digitsVal rest).map fun n => -(n : ℤ)
  | '+' :: rest => (digitsVal rest).map fun n => (n : ℤ)
  | cs => (digitsVal cs).map fun n => (n : ℤ)

/-- Does a serialized string field contain the sentence patterns the
validator looks for? -/
def hasSentencePattern (s : String) : Bool :=
  jsIncludes s.data ". ".data || jsIncludes s.data "! ".data

/-- The `result.data` object the client adapter receives from the
`/api/interpret` route (`intent`, `concepts` and the optional
`confidence` the route may attach).  The dynamic shape checks of the
validators (`typeof resp.intent === 'string'`,
`Array.isArray(resp.concepts)`) hold by construction in this typed
model. -/
structure GeminiData where
  intent : String
  concepts : List AACConcept
  confidence : Option ℚ := none
  deriving DecidableEq, Repr

/-- The `JSON.stringify(response).includes('. ') || ... .includes('! ')`
guard of `validateGeminiResponse`.  JSON punctuation between fields
contains no spaces, numbers serialize without spaces, and string
escaping leaves `". "` / `"! "` intact, so the pattern occurs in the
serialized response exactly when it occurs inside one of the string
fields: the intent, a concept's `type`, or a string concept value. -/
def responseContainsSentence (d : GeminiData) : Bool :=
  hasSentencePattern d.intent ||
  d.concepts.any fun c =>
    hasSentencePattern c.type ||
    (match c.value with | .str s => hasSentencePattern s | _ => false)

/-- `validateGeminiResponse` from `src/lib/geminiService.ts`: the shared
concept validation followed by the sentence-pattern guard (the
`typeof` / `Array.isArray` shape checks hold by typing). -/
def validateGeminiResponse (d : GeminiData) : Bool :=
  validateConcepts d.concepts && !responseContainsSentence d

/-- JavaScript `x || dflt` on an optional number (`0` is falsy). -/
def jsOrNum (v : Option ℚ) (dflt : ℚ) : ℚ :=
  match v with
  | none => dflt
  | some q => if q = 0 then dflt else q

/-- `interpretWithGemini` from `src/lib/geminiService.ts`, as a function
of the route's reply body: `none` stands for any network failure or
`success:false` reply (the code returns `null` on each); on a
`success:true` body it validates `result.data` and builds the
interpretation with `confidence: result.data.confidence || 0.75` and
`source: 'gemini'`. -/
def interpretWithGemini (resp : Option GeminiData) : Option SemanticInterpretation :=
  match resp with
  | none => none
  | some d =>
    if validateGeminiResponse d then
      some { intent := d.intent, concepts := d.concepts,
             source := "gemini", confidence := jsOrNum d.confidence (3/4) }
    else none

/-- The value `extractJsonFromGeminiText` hands to the route's
validation: an object with a string `intent` and an array `concepts`
(the dynamic shape checks of `isGeminiConceptResponse` hold by
typing). -/
structure GeminiParsedReply where
  intent : String
  concepts : List AACConcept
  deriving DecidableEq, Repr

/-- `isAACConcept` from `src/app/api/interpret/route.ts`: whitelisted
type, string-or-number value, and a numeric value for `quantity`. -/
def isAACConcept (c : AACConcept) : Bool :=
  (c.type = "action" || c.type = "quantity" || c.type = "payment" ||
   c.type = "benefit" || c.type = "item" || c.type = "modifier") &&
  (match c.value with | .str _ => true | .num _ => true | _ => false) &&
  (c.type ≠ "quantity" ||
    match c.value with | .num _ => true | _ => false)

/-- `isGeminiConceptResponse` from `src/app/api/interpret/route.ts`. -/
def isGeminiConceptResponse (r : GeminiParsedReply) : Bool :=
  r.concepts.all isAACConcept

/-- The success path of `POST` in `src/app/api/interpret/route.ts`: on a
parsed reply passing `isGeminiConceptResponse`, answer with
`{ intent, concepts, source: 'gemini', confidence: 0.75 }`; every other
path answers `success:false`, which the client maps to `null`
(modelled by `none`). -/
def routePOST (parsed : Option GeminiParsedReply) : Option GeminiData :=
  match parsed with
  | none => none
  | some r =>
    if isGeminiConceptResponse r then
      some { intent := r.intent, concepts := r.concepts, confidence := some (3/4) }
    else none

/-! ### The mock fallback interpreter (`getMockInterpretation`) -/

/-- Attempt the regex `(\d+)\s*%\s*off` anchored at the current
position: a nonempty digit run, optional whitespace, `%`, optional
whitespace, `off`; returns the captured digits. -/
def tryPercentAt (cs : List Char) : Option String :=
  let ds := cs.takeWhile Char.isDigit
  if ds.isEmpty then none
  else
    match (cs.drop ds.length).dropWhile isJsWs with
    | '%' :: r2 =>
      if leadsWith "off".data (r2.dropWhile isJsWs) then some ⟨ds⟩ else none
    | _ => none

/-- Leftmost match of `normalizedPhrase.match(/(\d+)\s*%\s*off/)`,
returning the first capture group. -/
def percentCapture : List Char → Option String
  | [] => none
  | c :: rest =>
    match tryPercentAt (c :: rest) with
    | some d => some d
    | none => percentCapture rest

/-- Leftmost match of `normalizedPhrase.match(/(\d+)/)`: the first
digit run. -/
def firstIntCapture : List Char → Option String
  | [] => none
  | c :: rest =>
    if c.isDigit then some ⟨(c :: rest).takeWhile Char.isDigit⟩
    else firstIntCapture rest

/-- The `concepts` accumulation of `getMockInterpretation` (its local
`concepts` array, named so the checks can be reasoned about): the pieces
appear in push order — percent pattern, `free`, `buy`, bare number (only
when the percent pattern did not match), `item`/`product`.  In the
number check, `parseInt` of the captured digits is the digit run's value
(the capture is a nonempty digit string, so the `NaN` case of `parseInt`
is unreachable and modelled by the empty contribution). -/
def mockConcepts (n : List Char) : List AACConcept :=
  (match percentCapture n with
   | some d => [cS "benefit" "discount", cS "modifier" (d ++ "_percent_off")]
   | none => []) ++
  (if jsIncludes n "free".data then [cS "benefit" "free"] else []) ++
  (if jsIncludes n "buy".data then [cS "action" "buy"] else []) ++
  (match firstIntCapture n, percentCapture n with
   | some d, none =>
      match jsParseInt d with
      | some k => [⟨"quantity", .num (k : ℚ)⟩]
      | none => []
   | _, _ => []) ++
  (if jsIncludes n "item".data || jsIncludes n "product".data then
     [cS "item" "item"] else [])

/-- `getMockInterpretation` from `src/lib/geminiService.ts`: lowercase
and trim the phrase, accumulate concepts from the pattern checks in
source order, and return `none` when nothing accumulated, otherwise
`{ intent: 'purchase', concepts, source: 'gemini', confidence: 0.5 }`. -/
def getMockInterpretation (phrase : String) : Option SemanticInterpretation :=
  let concepts := mockConcepts (jsTrim (jsToLower phrase.data))
  if concepts.isEmpty then none
  else some { intent := "purchase", concepts := concepts,
              source := "gemini", confidence := 1/2 }

/-! ### Concept-to-card mapping (`src/lib/conceptToCard.ts`) -/

/-- Lowercase a whole string (`.toLowerCase()`). -/
def jsToLowerS (s : String) : String := ⟨jsToLower s.data⟩

/-- `CONCEPT_SYMBOLS[type][valueStr]` (value-level entries only). -/
def conceptSymbolLookup (t v : String) : Option String :=
  match t, v with
  | "action", "buy" => some "🛒"
  | "action", "get" => some "📦"
  | "action", "pay" => some "💳"
  | "action", "take" => some "✋"
  | "action", "give" => some "🤲"
  | "action", "want" => some "🙋"
  | "action", "need" => some "❗"
  | "quantity", "1" => some "1️⃣"
  | "quantity", "2" => some "2️⃣"
  | "quantity", "3" => some "3️⃣"
  | "quantity", "4" => some "4️⃣"
  | "quantity", "5" => some "5️⃣"
  | "quantity", "6" => some "6️⃣"
  | "quantity", "7" => some "7️⃣"
  | "quantity", "8" => some "8️⃣"
  | "quantity", "9" => some "9️⃣"
  | "quantity", "10" => some "🔟"
  | "payment", "pay_for_one" => some "💰1"
  | "payment", "pay_for_two" => some "💰2"
  | "payment", "pay_one_and_half" => some "💰½"
  | "payment", "pay_less" => some "💵⬇️"
  | "payment", "no_payment" => some "🚫💰"
  | "benefit", "free" => some "🆓"
  | "benefit", "discount" => some "🏷️"
  | "benefit", "second_item_free" => some "2️⃣🆓"
  | "benefit", "third_item_free" => some "3️⃣🆓"
  | "benefit", "second_item_discount" => some "2️⃣🏷️"
  | "benefit", "big_discount" => some "🏷️🏷️"
  | "benefit", "bigger_discount" => some "🏷️📈"
  | "item", "item" => some "📦"
  | "item", "product" => some "🏷️"
  | "item", "shipping" => some "🚚"
  | "item", "gift" => some "🎁"
  | "item", "sample" => some "🧪"
  | "item", "all_items" => some "📦📦"
  | "modifier", "half_price" => some "½💰"
  | "modifier", "quarter_off" => some "¼🏷️"
  | "modifier", "limited_time" => some "⏰"
  | "modifier", "more" => some "➕"
  | "modifier", "second" => some "2️⃣"
  | "modifier", "extra" => some "➕"
  | _, _ => none

/-- The `default` entry of `CONCEPT_SYMBOLS[type]`; `none` when the type
has no table at all. -/
def conceptSymbolDefault (t : String) : Option String :=
  match t with
  | "action" => some "▶️"
  | "quantity" => some "#️⃣"
  | "payment" => some "💳"
  | "benefit" => some "⭐"
  | "item" => some "📦"
  | "modifier" => some "🔹"
  | _ => none

/-- `getSymbolForConcept` from `src/lib/conceptToCard.ts`: unknown type
→ `❓`; otherwise value entry, else the type's `default` entry (all six
tables define a nonempty `default`, so the final `|| '❓'` of the source
never fires there). -/
def getSymbolForConcept (concept : AACConcept) : String :=
  match conceptSymbolDefault concept.type with
  | none => "❓"
  | some dflt =>
    match conceptSymbolLookup concept.type (jsValueToString concept.value) with
    | some s => s
    | none => dflt

/-- `CONCEPT_TEXT_TEMPLATES[type][valueStr]`. -/
def conceptTextTemplate (t v : String) : Option String :=
  match t, v with
  | "action", "buy" => some "Buy"
  | "action", "get" => some "Get"
  | "action", "pay" => some "Pay"
  | "action", "take" => some "Take"
  | "action", "give" => some "Give"
  | "action", "want" => some "I want"
  | "action", "need" => some "I need"
  | "payment", "pay_for_one" => some "Pay for 1"
  | "payment", "pay_for_two" => some "Pay for 2"
  | "payment", "pay_one_and_half" => some "Pay 1½"
  | "payment", "pay_less" => some "Pay less"
  | "payment", "no_payment" => some "No payment"
  | "benefit", "free" => some "Free"
  | "benefit", "discount" => some "Discount"
  | "benefit", "second_item_free" => some "2nd free"
  | "benefit", "third_item_free" => some "3rd free"
  | "benefit", "second_item_discount" => some "2nd discount"
  | "benefit", "big_discount" => some "Big sale"
  | "benefit", "bigger_discount" => some "More savings"
  | "item", "item" => some "Item"
  | "item", "product" => some "Product"
  | "item", "shipping" => some "Shipping"
  | "item", "gift" => some "Gift"
  | "item", "sample" => some "Sample"
  | "item", "all_items" => some "All items"
  | "modifier", "half_price" => some "Half price"
  | "modifier", "quarter_off" => some "25% off"
  | "modifier", "limited_time" => some "Limited time"
  | "modifier", "more" => some "More"
  | "modifier", "second" => some "Second"
  | "modifier", "extra" => some "Extra"
  | "modifier", "twenty_percent_off" => some "20% off"
  | _, _ => none

/-- A `\w` word character (`[A-Za-z0-9_]`). -/
def isWordChar (c : Char) : Bool := c.isAlpha || c.isDigit || c = '_'

/-- `.replace(/\b\w/g, c => c.toUpperCase())`: uppercase every word
character not preceded by a word character.  The `Bool` argument says
whether the previous character was a word character. -/
def upperAtBoundaries : Bool → List Char → List Char
  | _, [] => []
  | prevW, c :: cs =>
    (if isWordChar c && !prevW then c.toUpper else c) ::
      upperAtBoundaries (isWordChar c) cs

/-- `_` → space (`.replace(/_/g, ' ')`). -/
def underscoresToSpaces (cs : List Char) : List Char :=
  cs.map fun c => if c = '_' then ' ' else c

/-- `getTextForConcept` from `src/lib/conceptToCard.ts`: quantity
concepts render as `"<n> item(s)"` (via `parseInt` when the value is
not a number; `parseInt` failure is JS `NaN`, rendered `"NaN"`), other
types use the text template with a title-cased fallback. -/
def getTextForConcept (concept : AACConcept) : String :=
  if concept.type = "quantity" then
    let num : Option ℚ :=
      match concept.value with
      | .num q => some q
      | v => (jsParseInt (jsValueToString v)).map fun k => (k : ℚ)
    match num with
    | none => "NaN items"
    | some q =>
      (if q.den = 1 then toString q.num else toString q.num ++ "/" ++ toString q.den)
        ++ " item" ++ (if q = 1 then "" else "s")
  else
    match conceptTextTemplate concept.type (jsValueToString concept.value) with
    | some template => template
    | none =>
      ⟨upperAtBoundaries false (underscoresToSpaces (jsValueToString concept.value).data)⟩

/-- `commonMappings` from `findMatchingCard`. -/
def commonMappings (v : String) : Option (List String) :=
  match v with
  | "buy" => some ["buy", "purchase", "shop", "get"]
  | "want" => some ["want", "i want", "need", "i need"]
  | "free" => some ["free", "no cost", "nothing"]
  | "pay" => some ["pay", "money", "cost"]
  | "yes" => some ["yes", "ok", "okay", "agree"]
  | "no" => some ["no", "not", "nope", "disagree"]
  | _ => none

/-- The first `for` loop of `findMatchingCard`: per card, in vocabulary
order, try the exact text match, then the value equality/containment
check; return the first card passing either. -/
def findMatchingCardScan (conceptText valueStr : String) : List Card → Option Card
  | [] => none
  | card :: rest =>
    let cardText := jsToLowerS card.text
    if cardText = conceptText then some card
    else if cardText = valueStr || jsIncludes cardText.data valueStr.data then
      some card
    else findMatchingCardScan conceptText valueStr rest

/-- The second `for` loop of `findMatchingCard`: the first card whose
lowercased text is listed in the synonym table entry. -/
def findSynonymScan (mappings : List String) : List Card → Option Card
  | [] => none
  | card :: rest =>
    if mappings.contains (jsToLowerS card.text) then some card
    else findSynonymScan mappings rest

/-- The `valueStr` local of `findMatchingCard`'s first loop: the concept
value as a string, lowercased, underscores replaced by spaces. -/
def valueStrC (concept : AACConcept) : String :=
  ⟨underscoresToSpaces (jsToLower (jsValueToString concept.value).data)⟩

/-- `findMatchingCard` from `src/lib/conceptToCard.ts` (its local
`conceptText` binding written inline, `valueStr` named `valueStrC`). -/
def findMatchingCard (concept : AACConcept) (userCards : List Card) : Option Card :=
  match findMatchingCardScan (jsToLowerS (getTextForConcept concept))
      (valueStrC concept) userCards with
  | some card => some card
  | none =>
    match commonMappings (jsToLowerS (jsValueToString concept.value)) with
    | some mappings => findSynonymScan mappings userCards
    | none => none

/-- `CONCEPT_COLORS` (a `Record<ConceptType, string>`; `none` models the
JS `undefined` produced by indexing with a type outside the six). -/
def CONCEPT_COLORS (t : String) : Option String :=
  match t with
  | "action" => some "#E3F2FD"
  | "quantity" => some "#FFF3E0"
  | "payment" => some "#E8F5E9"
  | "benefit" => some "#FCE4EC"
  | "item" => some "#F3E5F5"
  | "modifier" => some "#FFFDE7"
  | _ => none

/-- `concept.type.charAt(0).toUpperCase() + concept.type.slice(1)`. -/
def capitalizeFirst (s : String) : String :=
  match s.data with
  | [] => ""
  | c :: rest => ⟨c.toUpper :: rest⟩

/-- `createTemporaryCard` from `src/lib/conceptToCard.ts`.  The color of
a card for a type outside the six is the JS `undefined`, modelled by the
sentinel `"undefined"` (no claim observes it). -/
def createTemporaryCard (concept : AACConcept) (tempId : ℤ) : Card :=
  { id := tempId,
    text := getTextForConcept concept,
    symbol := getSymbolForConcept concept,
    category := capitalizeFirst concept.type,
    color := (CONCEPT_COLORS concept.type).getD "undefined",
    temporary := true,
    concept_type := some concept.type,
    concept_value := some concept.value }

/-- The `for` loop of `mapConceptsToCards`: walk the concepts carrying
the result list and the negative temporary-id counter. -/
def mapConceptsGo (userCards : List Card) :
    List AACConcept → List Card → ℤ → List Card
  | [], result, _ => result
  | concept :: rest, result, tempIdCounter =>
    match findMatchingCard concept userCards with
    | some existingCard =>
      if result.any fun c => c.id = existingCard.id then
        mapConceptsGo userCards rest result tempIdCounter
      else
        mapConceptsGo userCards rest (result ++ [existingCard]) tempIdCounter
    | none =>
      mapConceptsGo userCards rest
        (result ++ [createTemporaryCard concept tempIdCounter]) (tempIdCounter - 1)

/-- `mapConceptsToCards` from `src/lib/conceptToCard.ts` (temporary ids
start at −1 and decrease). -/
def mapConceptsToCards (concepts : List AACConcept) (userCards : List Card) :
    List Card :=
  mapConceptsGo userCards concepts [] (-1)

/-- `getEssentialCommunicationCards` from `src/lib/conceptToCard.ts`:
for each of the six essential texts, in order, the first vocabulary card
whose text matches case-insensitively. -/
def getEssentialCommunicationCards (userCards : List Card) : List Card :=
  ["I want", "Please", "Thank you", "Yes", "No", "Help"].foldl
    (fun result essential =>
      match userCards.find? (fun card => jsToLowerS card.text = jsToLowerS essential) with
      | some m => result ++ [m]
      | none => result)
    []

/-! ### The orchestrator (`generateContextBoard` in
`src/lib/contextBoardGenerator.ts`) -/

/-- The three user-facing error messages of `generateContextBoard`. -/
def emptyPhraseError : String := "Please enter a phrase to interpret"

/-- The uninterpretable-phrase error message. -/
def uninterpretableError : String :=
  "Could not interpret this phrase. Try a different wording or add cards manually."

/-- The validation-failure error message. -/
def validationError : String :=
  "The interpretation failed validation. The phrase may be too complex."

/-- The essential-merging loop of `generateContextBoard`: append each
essential card whose id is not already present. -/
def addEssentialCards (contextCards essentialCards : List Card) : List Card :=
  essentialCards.foldl
    (fun allCards essential =>
      if allCards.any fun c => c.id = essential.id then allCards
      else allCards ++ [essential])
    contextCards

/-- `MAX_BOARD_SIZE` from `generateContextBoard`. -/
def MAX_BOARD_SIZE : ℕ := 12

/-- Steps 1–2 of `generateContextBoard` (its `interpretation` /
`source` locals): library first, then the Gemini result, then the mock
fallback, tagging the chosen provenance. -/
def pickStage (phrase : String)
    (geminiResult : Option SemanticInterpretation) :
    Option SemanticInterpretation × String :=
  match findPromotionMatch phrase with
  | some i => (some i, "library")
  | none =>
    match geminiResult with
    | some i => (some i, "gemini")
    | none => (getMockInterpretation phrase, "fallback")

/-- Steps 4–5 of `generateContextBoard`: map the accepted
interpretation's concepts to cards, merge the essentials, truncate to
`MAX_BOARD_SIZE`, and build the board record. -/
def assembleBoard (phrase : String) (userCards : List Card)
    (interpretation : SemanticInterpretation) (now : ℕ) : ContextBoard :=
  { id := "ctx_" ++ toString now,
    name := "Context: " ++ (⟨phrase.data.take 30⟩ : String) ++
      (if 30 < phrase.data.length then "..." else ""),
    phrase := phrase,
    interpretation := interpretation,
    cards := (addEssentialCards
        (mapConceptsToCards interpretation.concepts userCards)
        (getEssentialCommunicationCards userCards)).take MAX_BOARD_SIZE,
    created_at := toString now }

/-- `generateContextBoard` from `src/lib/contextBoardGenerator.ts`.
`geminiResult` is the value of `await interpretWithGemini(phrase)`
(see the header); `now` the `Date.now()` tick. -/
def generateContextBoard (phrase : String) (userCards : List Card)
    (geminiResult : Option SemanticInterpretation) (now : ℕ) :
    ContextBoardResult :=
  if (jsTrim phrase.data).isEmpty then
    { success := false, board := none, error := some emptyPhraseError,
      source := "error" }
  else
    match pickStage phrase geminiResult with
    | (none, _) =>
      { success := false, board := none, error := some uninterpretableError,
        source := "error" }
    | (some interpretation, source) =>
      if !validateConcepts interpretation.concepts then
        { success := false, board := none, error := some validationError,
          source := "error" }
      else
        { success := true,
          board := some (assembleBoard phrase userCards interpretation now),
          error := none,
          source := source }

/-! ### Functional correctness of the Levenshtein computation

`levSpec xs ys` is the textbook Levenshtein distance by head recursion.
The DP rows of `editDistance` hold, at column `j`, the distance between
the reversed `j`-prefix of `a` and the reversed processed part of `b`,
so the final cell is `levSpec a.data.reverse b.data.reverse`.  The only
consequence the development needs is `editDistance a b = 0 → a = b`. -/

/-- Reference Levenshtein distance (head recursion). -/
def levSpec : List Char → List Char → ℕ
  | [], ys => ys.length
  | x :: xs, [] => (x :: xs).length
  | x :: xs, y :: ys =>
    if y = x then levSpec xs ys
    else min (min (levSpec xs ys) (levSpec xs (y :: ys))) (levSpec (x :: xs) ys) + 1
termination_by xs ys => xs.length + ys.length

/-- `levSpec` against the empty list is the length. -/
lemma levSpec_nil_right (xs : List Char) : levSpec xs [] = xs.length := by
  cases xs <;> simp [levSpec]

/-- A zero distance forces equality (bounded-depth form). -/
lemma levSpec_eq_zero_aux :
    ∀ (n : ℕ) (xs ys : List Char), xs.length + ys.length ≤ n →
      levSpec xs ys = 0 → xs = ys := by
  intro n
  induction n with
  | zero =>
    intro xs ys hlen _
    match xs, ys with
    | [], [] => rfl
    | [], _ :: _ => simp at hlen
    | _ :: _, _ => simp at hlen
  | succ n ih =>
    intro xs ys hlen h
    match xs, ys with
    | [], [] => rfl
    | [], y :: ys => simp [levSpec] at h
    | x :: xs, [] => simp [levSpec] at h
    | x :: xs, y :: ys =>
      rw [levSpec] at h
      split at h
      · next heq =>
        subst heq
        have hx := ih xs ys (by simp at hlen; omega) h
        rw [hx]
      · omega

/-- A zero distance forces equality. -/
lemma levSpec_eq_zero {xs ys : List Char} (h : levSpec xs ys = 0) : xs = ys :=
  levSpec_eq_zero_aux (xs.length + ys.length) xs ys le_rfl h

/-- The successive reversed prefixes obtained by extending `arev` with
the elements of the second argument. -/
def extPrefixes (arev : List Char) : List Char → List (List Char)
  | [] => []
  | c :: cs => (c :: arev) :: extPrefixes (c :: arev) cs

/-- `levRow` maps the row of distances against `brev` to the row of
distances against `bc :: brev`. -/
lemma levRow_spec (bc : Char) (brev : List Char) :
    ∀ (as arev : List Char),
      levRow bc as (levSpec arev brev) (levSpec arev (bc :: brev))
        ((extPrefixes arev as).map (levSpec · brev)) =
      (extPrefixes arev as).map (levSpec · (bc :: brev)) := by
  intro as
  induction as with
  | nil => intro arev; simp [extPrefixes, levRow]
  | cons ac as ih =>
    intro arev
    have hcell : levSpec (ac :: arev) (bc :: brev) =
        if bc = ac then levSpec arev brev
        else min (min (levSpec arev brev) (levSpec arev (bc :: brev)))
          (levSpec (ac :: arev) brev) + 1 := by
      rw [levSpec]
    simp only [extPrefixes, List.map_cons, levRow]
    rw [← hcell]
    have := ih (ac :: arev)
    rw [this]

/-- One outer iteration advances a full spec row. -/
lemma levNextRow_spec (a : List Char) (bc : Char) (brev : List Char) :
    levNextRow a bc (levSpec [] brev :: (extPrefixes [] a).map (levSpec · brev)) =
    levSpec [] (bc :: brev) :: (extPrefixes [] a).map (levSpec · (bc :: brev)) := by
  have h1 : levSpec ([] : List Char) (bc :: brev) = levSpec ([] : List Char) brev + 1 := by
    simp [levSpec]
  simp only [levNextRow]
  rw [h1, ← levRow_spec bc brev a [], h1]

/-- The whole fold over `b` maintains the spec row. -/
lemma lev_fold_spec (a : List Char) :
    ∀ (bs brev : List Char),
      bs.foldl (fun row bc => levNextRow a bc row)
        (levSpec [] brev :: (extPrefixes [] a).map (levSpec · brev)) =
      levSpec [] (bs.reverse ++ brev) ::
        (extPrefixes [] a).map (levSpec · (bs.reverse ++ brev)) := by
  intro bs
  induction bs with
  | nil => intro brev; simp
  | cons bc bs ih =>
    intro brev
    simp only [List.foldl_cons]
    rw [levNextRow_spec, ih (bc :: brev)]
    have hb : (bc :: bs).reverse ++ brev = bs.reverse ++ bc :: brev := by simp
    rw [hb]

/-- The spec values of the extended prefixes against `[]` are the
consecutive lengths. -/
lemma extPrefixes_map_levSpec_nil :
    ∀ (as arev : List Char),
      (extPrefixes arev as).map (levSpec · []) =
      List.range' (arev.length + 1) as.length := by
  intro as
  induction as with
  | nil => intro arev; simp [extPrefixes]
  | cons c cs ih =>
    intro arev
    have h1 : extPrefixes arev (c :: cs) =
        (c :: arev) :: extPrefixes (c :: arev) cs := rfl
    rw [h1, List.map_cons, ih (c :: arev)]
    simp [levSpec_nil_right, List.range']

/-- Last element of the extended prefixes: the full reversed list. -/
lemma extPrefixes_getLastD :
    ∀ (as arev dflt : List Char), as ≠ [] →
      (extPrefixes arev as).getLastD dflt = as.reverse ++ arev := by
  intro as
  induction as with
  | nil => intro _ _ h; exact absurd rfl h
  | cons c cs ih =>
    intro arev dflt _
    cases cs with
    | nil => simp [extPrefixes]
    | cons c' cs' =>
      have h1 : extPrefixes arev (c :: c' :: cs') =
          (c :: arev) :: extPrefixes (c :: arev) (c' :: cs') := rfl
      rw [h1, List.getLastD_cons, ih (c :: arev) (c :: arev) (by simp)]
      simp

/-- `getLastD` through a `map`. -/
lemma getLastD_map (f : List Char → ℕ) (l : List (List Char)) (d : List Char) :
    (l.map f).getLastD (f d) = f (l.getLastD d) := by
  induction l generalizing d with
  | nil => simp
  | cons hd tl ihl =>
    cases tl with
    | nil => simp
    | cons hd' tl' =>
      rw [List.map_cons, List.getLastD_cons, List.getLastD_cons]
      exact ihl hd

/-- `editDistance` computes the reference Levenshtein distance (on the
reversed character lists — the distance is the same either way, but only
this form is needed). -/
lemma editDistance_eq_levSpec (a b : String) :
    editDistance a b = levSpec a.data.reverse b.data.reverse := by
  have hinit : List.range (a.data.length + 1) =
      levSpec [] [] :: (extPrefixes [] a.data).map (levSpec · []) := by
    rw [extPrefixes_map_levSpec_nil]
    simp [levSpec, List.range_eq_range', List.range']
  show (b.data.foldl (fun row bc => levNextRow a.data bc row)
      (List.range (a.data.length + 1))).getLastD 0 =
    levSpec a.data.reverse b.data.reverse
  rw [hinit, lev_fold_spec a.data b.data []]
  cases ha : a.data with
  | nil =>
    simp [extPrefixes, levSpec]
  | cons c cs =>
    rw [List.getLastD_cons]
    have hmap := getLastD_map (levSpec · (b.data.reverse ++ []))
      (extPrefixes [] (c :: cs)) []
    have hlast := extPrefixes_getLastD (c :: cs) [] [] (by simp)
    rw [hlast] at hmap
    simp only [List.append_nil] at hmap ⊢
    have hd : ((extPrefixes [] (c :: cs)).map
        (fun x => levSpec x b.data.reverse)).getLastD (levSpec [] b.data.reverse) =
        ((extPrefixes [] (c :: cs)).map
        (fun x => levSpec x b.data.reverse)).getLastD (levSpec [] (b.data.reverse)) := rfl
    rw [show levSpec [] (b.data.reverse) = levSpec ([] : List Char) (b.data.reverse ++ []) by simp] at hd
    calc ((extPrefixes [] (c :: cs)).map
        (fun x => levSpec x b.data.reverse)).getLastD (levSpec [] b.data.reverse)
        = levSpec ((c :: cs).reverse ++ []) b.data.reverse := by
          have := getLastD_map (levSpec · b.data.reverse) (extPrefixes [] (c :: cs)) []
          rw [extPrefixes_getLastD (c :: cs) [] [] (by simp)] at this
          exact this
      _ = levSpec (c :: cs).reverse b.data.reverse := by simp

/-- If the computed distance is zero the strings are equal. -/
lemma editDistance_eq_zero {a b : String} (h : editDistance a b = 0) :
    a = b := by
  rw [editDistance_eq_levSpec] at h
  have h2 := levSpec_eq_zero h
  have hdata : a.data = b.data := by
    have := congrArg List.reverse h2
    simpa using this
  cases a
  cases b
  exact congrArg String.mk hdata

/-! ### Confidence bounds and the best-match fold -/

/-- `calculateConfidence` with its local bindings inlined. -/
lemma calculateConfidence_eq (a b : String) :
    calculateConfidence a b =
      (if normalizeInput a = normalizeInput b then 1
       else if jsIncludes (normalizeInput a).data (normalizeInput b).data ||
              jsIncludes (normalizeInput b).data (normalizeInput a).data then (9:ℚ)/10
       else 1 - (editDistance (normalizeInput a) (normalizeInput b) : ℚ) /
         ((max (normalizeInput a).data.length (normalizeInput b).data.length : ℕ) : ℚ)) :=
  rfl

/-- Every confidence the matcher computes is at most 1. -/
lemma calculateConfidence_le_one (a b : String) :
    calculateConfidence a b ≤ 1 := by
  rw [calculateConfidence_eq]
  split
  · exact le_rfl
  · split
    · norm_num
    · exact sub_le_self 1 (div_nonneg (Nat.cast_nonneg _) (Nat.cast_nonneg _))

/-- The matcher reports confidence exactly 1 precisely on phrases that
normalize identically. -/
lemma calculateConfidence_eq_one_iff (a b : String) :
    calculateConfidence a b = 1 ↔ normalizeInput a = normalizeInput b := by
  rw [calculateConfidence_eq]
  split
  · next heq => simp [heq]
  · next hne =>
    split
    · constructor
      · intro h; norm_num at h
      · intro h; exact absurd h hne
    · constructor
      · intro h
        rw [sub_eq_self] at h
        rcases div_eq_zero_iff.mp h with h0 | h0
        · have hd : editDistance (normalizeInput a) (normalizeInput b) = 0 := by
            exact_mod_cast h0
          exact absurd (editDistance_eq_zero hd) hne
        · have hm : max (normalizeInput a).data.length (normalizeInput b).data.length = 0 := by
            exact_mod_cast h0
          have ha : (normalizeInput a).data = [] :=
            List.length_eq_zero.mp (Nat.le_zero.mp (le_of_max_le_left (le_of_eq hm)))
          have hb : (normalizeInput b).data = [] :=
            List.length_eq_zero.mp (Nat.le_zero.mp (le_of_max_le_right (le_of_eq hm)))
          have heq : normalizeInput a = normalizeInput b := by
            cases hsa : normalizeInput a with
            | mk da =>
              cases hsb : normalizeInput b with
              | mk db =>
                rw [hsa] at ha
                rw [hsb] at hb
                simp only at ha hb
                rw [ha, hb]
          exact absurd heq hne
      · intro h; exact absurd h hne

/-- The per-candidate update of `findPromotionMatch`'s scan, as a step
function over (mapping, pattern) pairs. -/
def promoStep (np : String) (th : ℚ) :
    Option (PromotionMapping × ℚ) → PromotionMapping × String →
      Option (PromotionMapping × ℚ)
  | none, mp =>
    if th ≤ calculateConfidence np mp.2 then
      some (mp.1, calculateConfidence np mp.2)
    else none
  | some b, mp =>
    if th ≤ calculateConfidence np mp.2 then
      if b.2 < calculateConfidence np mp.2 then
        some (mp.1, calculateConfidence np mp.2)
      else some b
    else some b

/-- The catalog flattened into (mapping, pattern) pairs in scan order. -/
def catalogPairs : List (PromotionMapping × String) :=
  PROMOTION_MAPPINGS.flatMap fun m => m.patterns.map fun p => (m, p)

/-- Folding over a `flatMap` is the nested fold. -/
lemma foldl_flatMap {α β γ : Type} (g : α → List γ) (f : β → γ → β) :
    ∀ (l : List α) (b : β),
      (l.flatMap g).foldl f b = l.foldl (fun acc x => (g x).foldl f acc) b := by
  intro l
  induction l with
  | nil => intro b; rfl
  | cons x xs ih =>
    intro b
    simp only [List.flatMap_cons, List.foldl_append, List.foldl_cons]
    exact ih _

/-- The nested scan of `promoBestMatch` is the flat fold of `promoStep`
over the catalog pairs. -/
lemma promoBestMatch_eq_pairs (np : String) (th : ℚ) :
    promoBestMatch np th = catalogPairs.foldl (promoStep np th) none := by
  unfold promoBestMatch catalogPairs
  rw [foldl_flatMap]
  congr 1
  funext acc m
  rw [List.foldl_map]
  congr 1
  funext best pattern
  cases best <;> rfl

/-- Scanning pairs whose patterns are normalization fixed points
different from the (fixed) phrase leaves the best strictly below 1. -/
lemma promoFold_lt_one (p : String) (hp : normalizeInput p = p) :
    ∀ (l : List (PromotionMapping × String)) (st : Option (PromotionMapping × ℚ)),
      (∀ mp ∈ l, normalizeInput mp.2 = mp.2 ∧ mp.2 ≠ p) →
      (st = none ∨ ∃ b, st = some b ∧ b.2 < 1) →
      (l.foldl (promoStep p (7/10)) st = none ∨
        ∃ b, l.foldl (promoStep p (7/10)) st = some b ∧ b.2 < 1) := by
  intro l
  induction l with
  | nil => intro st _ hst; simpa using hst
  | cons mp rest ih =>
    intro st hconds hst
    have hmp := hconds mp (List.mem_cons_self mp rest)
    have hconf_lt : calculateConfidence p mp.2 < 1 := by
      rcases lt_or_eq_of_le (calculateConfidence_le_one p mp.2) with h | h
      · exact h
      · exfalso
        have h1 := (calculateConfidence_eq_one_iff p mp.2).mp h
        rw [hp, hmp.1] at h1
        exact hmp.2 h1.symm
    rw [List.foldl_cons]
    refine ih _ (fun x hx => hconds x (List.mem_cons_of_mem mp hx)) ?_
    rcases hst with hst | ⟨b, hb, hlt⟩
    · subst hst
      simp only [promoStep]
      split
      · exact Or.inr ⟨_, rfl, hconf_lt⟩
      · exact Or.inl rfl
    · subst hb
      simp only [promoStep]
      split
      · split
        · exact Or.inr ⟨_, rfl, hconf_lt⟩
        · exact Or.inr ⟨b, rfl, hlt⟩
      · exact Or.inr ⟨b, rfl, hlt⟩

/-- Once the best is a confidence-1 candidate, the rest of the scan
cannot displace it (strict improvement is required). -/
lemma promoFold_keep_top (p : String) (m : PromotionMapping) :
    ∀ (l : List (PromotionMapping × String)),
      l.foldl (promoStep p (7/10)) (some (m, 1)) = some (m, 1) := by
  intro l
  induction l with
  | nil => rfl
  | cons mp rest ih =>
    rw [List.foldl_cons]
    have hle := calculateConfidence_le_one p mp.2
    have hstep : promoStep p (7/10) (some (m, 1)) mp = some (m, 1) := by
      simp only [promoStep]
      split
      · rw [if_neg (not_lt.mpr hle)]
      · rfl
    rw [hstep, ih]

/-- Meeting the phrase's own pattern promotes the best to `(m, 1)`. -/
lemma promoStep_hit (p : String)
    (m : PromotionMapping) (st : Option (PromotionMapping × ℚ))
    (hst : st = none ∨ ∃ b, st = some b ∧ b.2 < 1) :
    promoStep p (7/10) st (m, p) = some (m, 1) := by
  have hconf : calculateConfidence p p = 1 :=
    (calculateConfidence_eq_one_iff p p).mpr rfl
  rcases hst with hst | ⟨b, hb, hlt⟩
  · subst hst
    simp only [promoStep, hconf]
    rw [if_pos (by norm_num)]
  · subst hb
    simp only [promoStep, hconf]
    rw [if_pos (by norm_num), if_pos hlt]

/-- Every catalog pattern is a fixed point of normalization. -/
lemma catalogPairs_norm_fixed : ∀ mp ∈ catalogPairs, normalizeInput mp.2 = mp.2 := by
  decide

/-- No pattern string is registered twice in the catalog. -/
lemma catalogPairs_snd_nodup : (catalogPairs.map Prod.snd).Nodup := by
  decide

/-- The scan only ever holds catalog mappings. -/
lemma promoFold_mem :
    ∀ (np : String) (th : ℚ) (l : List (PromotionMapping × String))
      (st : Option (PromotionMapping × ℚ)),
      (∀ mp ∈ l, mp.1 ∈ PROMOTION_MAPPINGS) →
      (st = none ∨ ∃ m c, st = some (m, c) ∧ m ∈ PROMOTION_MAPPINGS) →
      (l.foldl (promoStep np th) st = none ∨
        ∃ m c, l.foldl (promoStep np th) st = some (m, c) ∧ m ∈ PROMOTION_MAPPINGS) := by
  intro np th l
  induction l with
  | nil => intro st _ hst; simpa using hst
  | cons mp rest ih =>
    intro st hl hst
    rw [List.foldl_cons]
    refine ih _ (fun x hx => hl x (List.mem_cons_of_mem mp hx)) ?_
    have hmp := hl mp (List.mem_cons_self mp rest)
    rcases hst with hst | ⟨m, c, hb, hmem⟩
    · subst hst
      simp only [promoStep]
      split
      · exact Or.inr ⟨mp.1, _, rfl, hmp⟩
      · exact Or.inl rfl
    · subst hb
      simp only [promoStep]
      split
      · split
        · exact Or.inr ⟨mp.1, _, rfl, hmp⟩
        · exact Or.inr ⟨m, c, rfl, hmem⟩
      · exact Or.inr ⟨m, c, rfl, hmem⟩

/-- Any interpretation the library matcher returns carries the concept
list of some catalog entry (with intent `purchase`, source `library`). -/
lemma findPromotionMatch_from_catalog {phrase : String} {th : ℚ}
    {i : SemanticInterpretation} (h : findPromotionMatch phrase th = some i) :
    ∃ m ∈ PROMOTION_MAPPINGS, i.concepts = m.concepts ∧
      i.intent = "purchase" ∧ i.source = "library" := by
  unfold findPromotionMatch at h
  have hpairs : ∀ mp ∈ catalogPairs, mp.1 ∈ PROMOTION_MAPPINGS := by
    intro mp hmp
    unfold catalogPairs at hmp
    obtain ⟨m, hm, hmem⟩ := List.mem_flatMap.mp hmp
    obtain ⟨p, _, hpe⟩ := List.mem_map.mp hmem
    rw [← hpe]
    exact hm
  have := promoFold_mem (normalizeInput phrase) th catalogPairs none hpairs (Or.inl rfl)
  rw [← promoBestMatch_eq_pairs] at this
  rcases this with hnone | ⟨m, c, hsome, hmem⟩
  · rw [hnone] at h; simp at h
  · rw [hsome] at h
    have h3 : SemanticInterpretation.mk "purchase" m.concepts "library" c = i :=
      Option.some.inj h
    refine ⟨m, hmem, ?_, ?_, ?_⟩ <;> rw [← h3]

/-- C4 backbone: matching any registered pattern returns confidence 1
and the registering entry's concepts. -/
lemma findPromotionMatch_pattern_exact :
    ∀ m ∈ PROMOTION_MAPPINGS, ∀ p ∈ m.patterns,
      findPromotionMatch p =
        some { intent := "purchase", concepts := m.concepts,
               source := "library", confidence := 1 } := by
  intro m hm p hpmem
  have hpair : (m, p) ∈ catalogPairs := by
    unfold catalogPairs
    exact List.mem_flatMap.mpr ⟨m, hm, List.mem_map.mpr ⟨p, hpmem, rfl⟩⟩
  have hpfix : normalizeInput p = p := catalogPairs_norm_fixed (m, p) hpair
  obtain ⟨l₁, l₂, hsplit⟩ := List.append_of_mem hpair
  have hl1 : ∀ mp ∈ l₁, normalizeInput mp.2 = mp.2 ∧ mp.2 ≠ p := by
    intro mp hmp
    refine ⟨catalogPairs_norm_fixed mp (by rw [hsplit]; exact List.mem_append_left _ hmp), ?_⟩
    have hnd := catalogPairs_snd_nodup
    rw [hsplit, List.map_append] at hnd
    have hdisj := List.disjoint_of_nodup_append hnd
    intro hcontra
    refine hdisj (List.mem_map.mpr ⟨mp, hmp, rfl⟩) ?_
    rw [List.map_cons, hcontra]
    exact List.mem_cons_self _ _
  unfold findPromotionMatch
  rw [hpfix, promoBestMatch_eq_pairs, hsplit, List.foldl_append, List.foldl_cons]
  have hpre := promoFold_lt_one p hpfix l₁ none hl1 (Or.inl rfl)
  rw [promoStep_hit p m (l₁.foldl (promoStep p (7/10)) none) hpre,
    promoFold_keep_top]
  rfl

/-! ### Orchestrator branch lemmas and validity facts -/

/-- A library hit short-circuits the stage choice. -/
lemma pickStage_library {phrase : String} {g : Option SemanticInterpretation}
    {i : SemanticInterpretation} (hlib : findPromotionMatch phrase = some i) :
    pickStage phrase g = (some i, "library") := by
  unfold pickStage
  rw [hlib]

/-- With no library hit, a Gemini interpretation is chosen. -/
lemma pickStage_gemini {phrase : String} {i : SemanticInterpretation}
    (hlib : findPromotionMatch phrase = none) :
    pickStage phrase (some i) = (some i, "gemini") := by
  unfold pickStage
  rw [hlib]

/-- With no library hit and no Gemini result, the mock fallback decides. -/
lemma pickStage_fallback {phrase : String}
    (hlib : findPromotionMatch phrase = none) :
    pickStage phrase none = (getMockInterpretation phrase, "fallback") := by
  unfold pickStage
  rw [hlib]

/-- Empty (after trim) phrases short-circuit into the empty-input error. -/
lemma generateContextBoard_empty {phrase : String} {u : List Card}
    {g : Option SemanticInterpretation} {now : ℕ}
    (h : (jsTrim phrase.data).isEmpty = true) :
    generateContextBoard phrase u g now =
      ContextBoardResult.mk false none (some emptyPhraseError) "error" := by
  unfold generateContextBoard
  simp [h]

/-- No stage produced an interpretation: the uninterpretable error. -/
lemma generateContextBoard_uninterpretable {phrase : String} {u : List Card}
    {g : Option SemanticInterpretation} {now : ℕ} {src : String}
    (hne : (jsTrim phrase.data).isEmpty = false)
    (hstage : pickStage phrase g = (none, src)) :
    generateContextBoard phrase u g now =
      ContextBoardResult.mk false none (some uninterpretableError) "error" := by
  unfold generateContextBoard
  simp [hne, hstage]

/-- The accepted interpretation fails validation: the validation error. -/
lemma generateContextBoard_invalid {phrase : String} {u : List Card}
    {g : Option SemanticInterpretation} {now : ℕ} {src : String}
    {i : SemanticInterpretation}
    (hne : (jsTrim phrase.data).isEmpty = false)
    (hstage : pickStage phrase g = (some i, src))
    (hval : validateConcepts i.concepts = false) :
    generateContextBoard phrase u g now =
      ContextBoardResult.mk false none (some validationError) "error" := by
  unfold generateContextBoard
  simp [hne, hstage, hval]

/-- The accepted interpretation passes validation: the success result. -/
lemma generateContextBoard_success {phrase : String} {u : List Card}
    {g : Option SemanticInterpretation} {now : ℕ} {src : String}
    {i : SemanticInterpretation}
    (hne : (jsTrim phrase.data).isEmpty = false)
    (hstage : pickStage phrase g = (some i, src))
    (hval : validateConcepts i.concepts = true) :
    generateContextBoard phrase u g now =
      ContextBoardResult.mk true (some (assembleBoard phrase u i now)) none src := by
  unfold generateContextBoard
  simp [hne, hstage, hval]

/-- `validateConcepts` distributes over list concatenation. -/
lemma validateConcepts_append (xs ys : List AACConcept) :
    validateConcepts (xs ++ ys) = (validateConcepts xs && validateConcepts ys) := by
  unfold validateConcepts
  exact List.all_append

/-- Every catalog entry's concept list passes the shared validation. -/
lemma catalog_concepts_valid :
    ∀ m ∈ PROMOTION_MAPPINGS, validateConcepts m.concepts = true := by
  decide

/-- No catalog entry has an empty concept list. -/
lemma catalog_concepts_nonempty :
    ∀ m ∈ PROMOTION_MAPPINGS, m.concepts ≠ [] := by
  decide

/-- Library interpretations always pass the shared validation. -/
lemma findPromotionMatch_valid {phrase : String} {th : ℚ}
    {i : SemanticInterpretation} (h : findPromotionMatch phrase th = some i) :
    validateConcepts i.concepts = true := by
  obtain ⟨m, hm, hc, _, _⟩ := findPromotionMatch_from_catalog h
  rw [hc]
  exact catalog_concepts_valid m hm

/-- Library interpretations never carry an empty concept list. -/
lemma findPromotionMatch_concepts_ne_nil {phrase : String} {th : ℚ}
    {i : SemanticInterpretation} (h : findPromotionMatch phrase th = some i) :
    i.concepts ≠ [] := by
  obtain ⟨m, hm, hc, _, _⟩ := findPromotionMatch_from_catalog h
  rw [hc]
  exact catalog_concepts_nonempty m hm

/-- Appending a nonempty suffix never yields the empty string. -/
lemma append_suffix_ne_empty (d suf : String) (hsuf : suf ≠ "") :
    d ++ suf ≠ "" := by
  intro h
  apply hsuf
  have hdata : d.data ++ suf.data = [] := congrArg String.data h
  have := (List.append_eq_nil.mp hdata).2
  cases suf
  simp at this
  simp [this]

/-- Every concept list the mock interpreter can accumulate passes the
shared validation. -/
lemma mockConcepts_valid (n : List Char) :
    validateConcepts (mockConcepts n) = true := by
  unfold mockConcepts
  rw [validateConcepts_append, validateConcepts_append, validateConcepts_append,
    validateConcepts_append]
  simp only [Bool.and_eq_true]
  refine ⟨⟨⟨⟨?_, ?_⟩, ?_⟩, ?_⟩, ?_⟩
  · split
    · next d _ =>
      have hne : (d ++ "_percent_off") ≠ "" :=
        append_suffix_ne_empty d "_percent_off" (by decide)
      simp [validateConcepts, cS, hne]
    · decide
  · split <;> decide
  · split <;> decide
  · split
    · next _ _ =>
      split
      · simp [validateConcepts]
      · decide
    · decide
  · split <;> decide

/-- `getMockInterpretation` with its local binding inlined. -/
lemma getMockInterpretation_eq (phrase : String) :
    getMockInterpretation phrase =
      (if (mockConcepts (jsTrim (jsToLower phrase.data))).isEmpty then none
       else some (SemanticInterpretation.mk "purchase"
         (mockConcepts (jsTrim (jsToLower phrase.data))) "gemini" (1/2))) :=
  rfl

/-- Mock interpretations always pass the shared validation. -/
lemma getMockInterpretation_valid {phrase : String} {i : SemanticInterpretation}
    (h : getMockInterpretation phrase = some i) :
    validateConcepts i.concepts = true := by
  rw [getMockInterpretation_eq] at h
  split at h
  · exact absurd h (by simp)
  · have := Option.some.inj h
    rw [← this]
    exact mockConcepts_valid _

/-- Mock interpretations never carry an empty concept list. -/
lemma getMockInterpretation_concepts_ne_nil {phrase : String}
    {i : SemanticInterpretation} (h : getMockInterpretation phrase = some i) :
    i.concepts ≠ [] := by
  rw [getMockInterpretation_eq] at h
  split at h
  · exact absurd h (by simp)
  · next hne =>
    have := Option.some.inj h
    rw [← this]
    simpa using hne

/-! ### Concrete scan evaluations shared by the witnesses -/

set_option maxRecDepth 200000 in
/-- The nonsense phrase of Scenario C matches nothing in the catalog. -/
lemma findPromotionMatch_asdkjasd : findPromotionMatch "asdkjasd" = none := by
  with_unfolding_all rfl

set_option maxRecDepth 200000 in
/-- A phrase the mock can interpret but the catalog cannot. -/
lemma findPromotionMatch_nine_items : findPromotionMatch "9 items" = none := by
  with_unfolding_all rfl

/-- The mock interpreter finds nothing in the Scenario C phrase. -/
lemma getMockInterpretation_asdkjasd : getMockInterpretation "asdkjasd" = none := by
  with_unfolding_all rfl

/-- The mock interpretation of `"9 items"`. -/
lemma getMockInterpretation_nine_items :
    getMockInterpretation "9 items" =
      some (SemanticInterpretation.mk "purchase"
        [AACConcept.mk "quantity" (.num 9), cS "item" "item"] "gemini" (1/2)) := by
  with_unfolding_all rfl

/-! ### The specification's reading of phrase normalization (for the
refinement comparison): "lowercase, trim, strip terminal punctuation
(`. , ! ? ; : ' "`), collapse internal whitespace runs to one space". -/

/-- The punctuation characters the specification lists. -/
def specStripSet : List Char := ['.', ',', '!', '?', ';', ':', '\'', '"']

/-- Collapse every whitespace run to one space, written as a right fold
(each whitespace character merges into an already-emitted space). -/
def specCollapse (cs : List Char) : List Char :=
  cs.foldr
    (fun c acc =>
      if isJsWs c then
        match acc with
        | ' ' :: _ => acc
        | _ => ' ' :: acc
      else c :: acc)
    []

/-- Phrase normalization as the specification words it. -/
def specNormalize (s : String) : String :=
  ⟨specCollapse (((jsTrim (jsToLower s.data)).filter
      fun c => !(specStripSet.contains c)))⟩

/-- The source's punctuation strip is the filter over the spec's
character set. -/
lemma stripPunct_eq_filter (cs : List Char) :
    stripPunct cs = cs.filter fun c => !(specStripSet.contains c) := by
  unfold stripPunct
  apply List.filter_congr
  intro c _
  congr 1
  simp only [specStripSet, List.contains_cons, List.contains_nil,
    Bool.or_false]
  apply Bool.eq_iff_iff.mpr
  simp only [Bool.or_eq_true, decide_eq_true_eq, beq_iff_eq]
  tauto

/-- A collapsed list headed by a whitespace character starts with a
space. -/
lemma specCollapse_ws_cons {b : Char} (hb : isJsWs b = true) (l : List Char) :
    ∃ tl, specCollapse (b :: l) = ' ' :: tl := by
  unfold specCollapse
  rw [List.foldr_cons, if_pos hb]
  split
  · next heq => exact ⟨_, heq⟩
  · exact ⟨_, rfl⟩

/-- One step of the spec's collapse fold. -/
lemma specCollapse_cons (c : Char) (l : List Char) :
    specCollapse (c :: l) =
      (if isJsWs c then
        (match specCollapse l with
         | ' ' :: _ => specCollapse l
         | _ => ' ' :: specCollapse l)
       else c :: specCollapse l) :=
  rfl

/-- The source's single-pass collapse agrees with the spec's fold. -/
lemma collapseWs_eq_specCollapse : ∀ cs, collapseWs cs = specCollapse cs := by
  intro cs
  induction cs using collapseWs.induct with
  | case1 => rfl
  | case2 c hc =>
    unfold collapseWs specCollapse
    simp [hc]
  | case3 c hc =>
    unfold collapseWs specCollapse
    simp [hc]
  | case4 a b t ha hb ih =>
    rw [collapseWs, if_pos ha, if_pos hb, ih, specCollapse_cons a, if_pos ha]
    obtain ⟨tl, htl⟩ := specCollapse_ws_cons hb t
    rw [htl]
    rfl
  | case5 a b t ha hb ih =>
    rw [collapseWs, if_pos ha, if_neg hb, ih, specCollapse_cons a, if_pos ha,
      specCollapse_cons b, if_neg hb]
    split
    · next heq =>
      exfalso
      have hb2 : b = ' ' := (List.cons.injEq _ _ _ _ ▸ heq).1
      rw [hb2] at hb
      exact hb rfl
    · rfl
  | case6 a b t ha ih =>
    rw [collapseWs, if_neg ha, ih, specCollapse_cons a, if_neg ha]

/-- `normalizeInput` is the normalization the specification describes. -/
lemma normalizeInput_eq_specNormalize (s : String) :
    normalizeInput s = specNormalize s := by
  unfold normalizeInput specNormalize
  rw [stripPunct_eq_filter, collapseWs_eq_specCollapse]

/-! ### Helper lemmas on the card-assembly functions -/

/-- Unfolding one essential-merging step. -/
lemma addEssentialCards_cons (acc : List Card) (e : Card) (es : List Card) :
    addEssentialCards acc (e :: es) =
      addEssentialCards (if acc.any (fun c => c.id = e.id) then acc
        else acc ++ [e]) es :=
  rfl

/-- Merging nothing changes nothing. -/
lemma addEssentialCards_nil (acc : List Card) : addEssentialCards acc [] = acc :=
  rfl

/-- Merging essentials only ever appends: the context cards stay a
prefix. -/
lemma addEssentialCards_extends :
    ∀ (es acc : List Card), ∃ rest, addEssentialCards acc es = acc ++ rest := by
  intro es
  induction es with
  | nil => intro acc; exact ⟨[], by simp [addEssentialCards_nil]⟩
  | cons e es ih =>
    intro acc
    rw [addEssentialCards_cons]
    cases hany : acc.any (fun c => c.id = e.id)
    · simp only [hany, Bool.false_eq_true, if_false]
      obtain ⟨r, hr⟩ := ih (acc ++ [e])
      exact ⟨e :: r, by rw [hr, List.append_assoc]; rfl⟩
    · simp only [hany, if_true]
      exact ih acc

/-- Merging adds at most one card per essential. -/
lemma addEssentialCards_length_le :
    ∀ (es acc : List Card),
      (addEssentialCards acc es).length ≤ acc.length + es.length := by
  intro es
  induction es with
  | nil => intro acc; simp [addEssentialCards_nil]
  | cons e es ih =>
    intro acc
    rw [addEssentialCards_cons]
    cases hany : acc.any (fun c => c.id = e.id)
    · simp only [hany, Bool.false_eq_true, if_false]
      have h2 := ih (acc ++ [e])
      have h3 : (acc ++ [e]).length = acc.length + 1 := by simp
      rw [h3] at h2
      simp only [List.length_cons]
      omega
    · simp only [hany, if_true]
      have h2 := ih acc
      simp only [List.length_cons]
      omega

/-- The essential selection picks at most one card per essential text. -/
lemma getEssentialCommunicationCards_length_le (u : List Card) :
    (getEssentialCommunicationCards u).length ≤ 6 := by
  have hgen : ∀ (ts : List String) (acc : List Card),
      ((ts.foldl (fun result essential =>
        match u.find? (fun card => jsToLowerS card.text = jsToLowerS essential) with
        | some m => result ++ [m]
        | none => result) acc).length ≤ acc.length + ts.length) := by
    intro ts
    induction ts with
    | nil => intro acc; simp
    | cons t ts ih =>
      intro acc
      rw [List.foldl_cons]
      cases hf : u.find? (fun card => jsToLowerS card.text = jsToLowerS t) with
      | none =>
        simp only [hf]
        have h2 := ih acc
        simp only [List.length_cons]
        omega
      | some m =>
        simp only [hf]
        have h2 := ih (acc ++ [m])
        have h3 : (acc ++ [m]).length = acc.length + 1 := by simp
        rw [h3] at h2
        simp only [List.length_cons]
        omega
  have := hgen ["I want", "Please", "Thank you", "Yes", "No", "Help"] []
  simpa [getEssentialCommunicationCards] using this

/-- The first scan of `findMatchingCard` only returns vocabulary cards. -/
lemma findMatchingCardScan_mem :
    ∀ (l : List Card) (ct vs : String) (c : Card),
      findMatchingCardScan ct vs l = some c → c ∈ l := by
  intro l
  induction l with
  | nil => intro ct vs c h; simp [findMatchingCardScan] at h
  | cons card rest ih =>
    intro ct vs c h
    rw [findMatchingCardScan] at h
    split at h
    · exact (Option.some.inj h) ▸ List.mem_cons_self _ _
    · split at h
      · exact (Option.some.inj h) ▸ List.mem_cons_self _ _
      · exact List.mem_cons_of_mem _ (ih ct vs c h)

/-- The synonym scan of `findMatchingCard` only returns vocabulary
cards. -/
lemma findSynonymScan_mem :
    ∀ (l : List Card) (ms : List String) (c : Card),
      findSynonymScan ms l = some c → c ∈ l := by
  intro l
  induction l with
  | nil => intro ms c h; simp [findSynonymScan] at h
  | cons card rest ih =>
    intro ms c h
    rw [findSynonymScan] at h
    split at h
    · exact (Option.some.inj h) ▸ List.mem_cons_self _ _
    · exact List.mem_cons_of_mem _ (ih ms c h)

/-- A matched card is always drawn from the vocabulary. -/
lemma findMatchingCard_mem {concept : AACConcept} {u : List Card} {c : Card}
    (h : findMatchingCard concept u = some c) : c ∈ u := by
  cases h1 : findMatchingCardScan (jsToLowerS (getTextForConcept concept))
      (valueStrC concept) u with
  | some card =>
    have h2 : findMatchingCard concept u = some card := by
      unfold findMatchingCard
      rw [h1]
    rw [h2] at h
    exact (Option.some.inj h) ▸ findMatchingCardScan_mem u _ _ card h1
  | none =>
    cases h3 : commonMappings (jsToLowerS (jsValueToString concept.value)) with
    | some ms =>
      have h2 : findMatchingCard concept u = findSynonymScan ms u := by
        unfold findMatchingCard
        rw [h1, h3]
      rw [h2] at h
      exact findSynonymScan_mem u ms c h
    | none =>
      have h2 : findMatchingCard concept u = none := by
        unfold findMatchingCard
        rw [h1, h3]
      rw [h2] at h
      simp at h

/-- The temporary-card id is the counter value. -/
lemma createTemporaryCard_id (concept : AACConcept) (k : ℤ) :
    (createTemporaryCard concept k).id = k :=
  rfl

/-- The mapping loop keeps card ids pairwise distinct when the
vocabulary carries no negative id: reused cards are guarded by the
duplicate check, temporary ids walk down from the counter. -/
lemma mapConceptsGo_ids_nodup {u : List Card} (hu : ∀ c ∈ u, 0 ≤ c.id) :
    ∀ (cs : List AACConcept) (acc : List Card) (k : ℤ),
      k < 0 →
      ((acc.map (fun c => c.id)).Nodup) →
      (∀ c ∈ acc, 0 ≤ c.id ∨ (k < c.id ∧ c.id < 0)) →
      ((mapConceptsGo u cs acc k).map (fun c => c.id)).Nodup := by
  intro cs
  induction cs with
  | nil => intro acc k _ hnd _; simpa [mapConceptsGo] using hnd
  | cons concept rest ih =>
    intro acc k hk hnd hprop
    rw [mapConceptsGo]
    split
    · next existingCard hfind =>
      cases hany : acc.any (fun c => c.id = existingCard.id)
      · simp only [hany, Bool.false_eq_true, if_false]
        have hmem := findMatchingCard_mem hfind
        have hexid : 0 ≤ existingCard.id := hu existingCard hmem
        refine ih (acc ++ [existingCard]) k hk ?_ ?_
        · rw [List.map_append, List.nodup_append]
          refine ⟨hnd, by simp, ?_⟩
          intro x hx hx2
          simp only [List.map_cons, List.map_nil, List.mem_singleton] at hx2
          obtain ⟨c', hc', hcx⟩ := List.mem_map.mp hx
          rw [hx2] at hcx
          have := (List.any_eq_false.mp hany) c' hc'
          simp only [decide_eq_true_eq] at this
          exact this hcx
        · intro c hc
          rcases List.mem_append.mp hc with hc | hc
          · exact hprop c hc
          · rw [List.mem_singleton.mp hc]
            exact Or.inl hexid
      · simp only [hany, if_true]
        exact ih acc k hk hnd hprop
    · next hfind =>
      have hknotin : k ∉ acc.map (fun c => c.id) := by
        intro hcontra
        obtain ⟨c', hc', hcx⟩ := List.mem_map.mp hcontra
        rcases hprop c' hc' with hge | ⟨hlt, _⟩
        · omega
        · omega
      refine ih (acc ++ [createTemporaryCard concept k]) (k - 1) (by omega) ?_ ?_
      · rw [List.map_append, List.nodup_append]
        refine ⟨hnd, by simp, ?_⟩
        intro x hx hx2
        simp only [List.map_cons, List.map_nil, List.mem_singleton,
          createTemporaryCard_id] at hx2
        rw [hx2] at hx
        exact hknotin hx
      · intro c hc
        rcases List.mem_append.mp hc with hc | hc
        · rcases hprop c hc with hge | ⟨hlt, hneg⟩
          · exact Or.inl hge
          · exact Or.inr ⟨by omega, hneg⟩
        · rw [List.mem_singleton.mp hc, createTemporaryCard_id]
          exact Or.inr ⟨by omega, by omega⟩

/-! ### Mock-interpreter characterization lemmas -/

/-- A digit is not whitespace. -/
lemma digit_not_ws {c : Char} (h : c.isDigit = true) : isJsWs c = false := by
  cases hws : isJsWs c with
  | false => rfl
  | true =>
    exfalso
    unfold isJsWs at hws
    simp only [Bool.or_eq_true, decide_eq_true_eq] at hws
    rcases hws with ((h1 | h1) | h1) | h1 <;>
      (subst h1; exact absurd h (by decide))

/-- The bare-number capture is a digit-headed digit run. -/
lemma firstIntCapture_shape :
    ∀ (n : List Char) (d : String), firstIntCapture n = some d →
      ∃ c rest, d.data = c :: rest ∧ c.isDigit = true := by
  intro n
  induction n with
  | nil => intro d h; simp [firstIntCapture] at h
  | cons c cs ih =>
    intro d h
    rw [firstIntCapture] at h
    split at h
    · next hc =>
      have hd := Option.some.inj h
      refine ⟨c, (cs.takeWhile Char.isDigit), ?_, hc⟩
      rw [← hd]
      show ((c :: cs).takeWhile Char.isDigit) = _
      rw [List.takeWhile_cons, if_pos hc]
    · exact ih d h

/-- `parseInt` succeeds on every bare-number capture. -/
lemma jsParseInt_of_capture {n : List Char} {d : String}
    (h : firstIntCapture n = some d) : ∃ k : ℤ, jsParseInt d = some k := by
  obtain ⟨c, rest, hdata, hc⟩ := firstIntCapture_shape n d h
  unfold jsParseInt
  rw [hdata, List.dropWhile_cons, digit_not_ws hc]
  simp only [Bool.false_eq_true, if_false]
  have hds : (c :: rest).takeWhile Char.isDigit = c :: rest.takeWhile Char.isDigit := by
    rw [List.takeWhile_cons, if_pos hc]
  split
  · next heq =>
    exfalso
    have : c = '-' := (List.cons.injEq _ _ _ _ ▸ heq).1
    rw [this] at hc
    exact absurd hc (by decide)
  · next heq =>
    exfalso
    have : c = '+' := (List.cons.injEq _ _ _ _ ▸ heq).1
    rw [this] at hc
    exact absurd hc (by decide)
  · unfold digitsVal
    rw [hds]
    simp

/-- The mock accumulation is empty exactly when none of the five checks
matched (the bare-number check being suppressed by a percent match is
invisible here: a percent match makes the list nonempty anyway). -/
lemma mockConcepts_eq_nil_iff (n : List Char) :
    mockConcepts n = [] ↔
      (percentCapture n = none ∧ jsIncludes n "free".data = false ∧
       jsIncludes n "buy".data = false ∧ firstIntCapture n = none ∧
       (jsIncludes n "item".data || jsIncludes n "product".data) = false) := by
  unfold mockConcepts
  constructor
  · intro h
    obtain ⟨hrest, hE⟩ := List.append_eq_nil.mp h
    obtain ⟨hrest, hD⟩ := List.append_eq_nil.mp hrest
    obtain ⟨hrest, hC⟩ := List.append_eq_nil.mp hrest
    obtain ⟨hA, hB⟩ := List.append_eq_nil.mp hrest
    have hp : percentCapture n = none := by
      cases hp : percentCapture n with
      | none => rfl
      | some d => simp [hp] at hA
    refine ⟨hp, ?_, ?_, ?_, ?_⟩
    · rcases Bool.eq_false_or_eq_true (jsIncludes n "free".data) with hf | hf
      · simp [hf] at hB
      · exact hf
    · rcases Bool.eq_false_or_eq_true (jsIncludes n "buy".data) with hf | hf
      · simp [hf] at hC
      · exact hf
    · cases hi : firstIntCapture n with
      | none => rfl
      | some d =>
        exfalso
        rw [hi, hp] at hD
        obtain ⟨k, hk⟩ := jsParseInt_of_capture hi
        simp [hk] at hD
    · rcases Bool.eq_false_or_eq_true
          (jsIncludes n "item".data || jsIncludes n "product".data) with hf | hf
      · simp [hf] at hE
      · exact hf
  · intro ⟨h1, h2, h3, h4, h5⟩
    rw [h1, h2, h3, h4, h5]
    simp

/-! ### The claims -/

/-- The first catalog entry (used by concrete witnesses). -/
def bogoEntry : PromotionMapping :=
  { promotion_id := "BOGO",
    patterns := ["buy one get one free", "buy 1 get 1 free", "bogo",
                 "b1g1", "buy one get one", "two for the price of one",
                 "2 for 1", "two for one"],
    concepts := [cS "action" "buy", cN "quantity" 2,
                 cS "payment" "pay_for_one", cS "benefit" "second_item_free"],
    aac_priority := "high",
    visual_hints := ["two_items", "pay_once", "free_item"] }

/-- The interpretation the library returns for BOGO patterns. -/
def bogoInterp : SemanticInterpretation :=
  SemanticInterpretation.mk "purchase" bogoEntry.concepts "library" 1

/-- `bogoEntry` heads the catalog. -/
lemma bogoEntry_mem : bogoEntry ∈ PROMOTION_MAPPINGS := by
  unfold bogoEntry PROMOTION_MAPPINGS
  exact List.mem_cons_self _ _

/-- The scan result on the registered pattern `"bogo"`. -/
lemma findPromotionMatch_bogo : findPromotionMatch "bogo" = some bogoInterp :=
  findPromotionMatch_pattern_exact bogoEntry bogoEntry_mem "bogo" (by decide)

/-- The scan result on `"buy one get one free"` (Scenario A). -/
lemma findPromotionMatch_bogof :
    findPromotionMatch "buy one get one free" = some bogoInterp :=
  findPromotionMatch_pattern_exact bogoEntry bogoEntry_mem
    "buy one get one free" (by decide)

/-- C4: for every pattern string registered in any entry of the static
promotion catalog, the promotion matcher returns a
`SemanticInterpretation` with confidence exactly 1 whose concepts are
exactly the concept list of the entry that registered the pattern (the
single highest-confidence candidate is kept, catalog order breaking
ties in favour of the first seen). -/
theorem C4_catalog_pattern_confidence_one :
    ∀ m ∈ PROMOTION_MAPPINGS, ∀ p ∈ m.patterns,
      findPromotionMatch p =
        some (SemanticInterpretation.mk "purchase" m.concepts "library" 1) :=
  findPromotionMatch_pattern_exact

/-- C4 witness: the theorem applied to the catalog's BOGO entry and its
pattern `"bogo"`. -/
theorem C4_witness :
    bogoEntry ∈ PROMOTION_MAPPINGS ∧ "bogo" ∈ bogoEntry.patterns ∧
    findPromotionMatch "bogo" =
      some (SemanticInterpretation.mk "purchase" bogoEntry.concepts "library" 1) :=
  ⟨bogoEntry_mem, by decide,
    C4_catalog_pattern_confidence_one bogoEntry bogoEntry_mem "bogo" (by decide)⟩

/-- C8: phrase normalization is exactly the spec's lowercase / trim /
strip-punctuation / collapse-whitespace pipeline, and consequently the
shouted, padded, punctuated Scenario-B phrase matches the same catalog
entry with the same confidence as `"buy one get one free"`. -/
theorem C8_normalization_and_shout_scenario :
    (∀ s : String, normalizeInput s = specNormalize s) ∧
    findPromotionMatch "  BUY ONE GET ONE FREE!!" =
      findPromotionMatch "buy one get one free" ∧
    findPromotionMatch "buy one get one free" = some bogoInterp := by
  refine ⟨normalizeInput_eq_specNormalize, ?_, findPromotionMatch_bogof⟩
  unfold findPromotionMatch
  have hn : normalizeInput "  BUY ONE GET ONE FREE!!" =
      normalizeInput "buy one get one free" := by decide
  rw [hn]

/-- C1: every board a successful `generateContextBoard` call returns
holds at most `MAX_BOARD_SIZE = 12` cards, and those cards are the
12-prefix of the concept-derived cards followed by the (deduplicated)
essential cards — so concept cards are retained in preference to
essentials when truncation occurs. -/
theorem C1_board_size_and_truncation :
    ∀ (phrase : String) (userCards : List Card)
      (g : Option SemanticInterpretation) (now : ℕ) (b : ContextBoard),
      (generateContextBoard phrase userCards g now).board = some b →
      b.cards.length ≤ MAX_BOARD_SIZE ∧
      b.cards = (addEssentialCards
          (mapConceptsToCards b.interpretation.concepts userCards)
          (getEssentialCommunicationCards userCards)).take MAX_BOARD_SIZE ∧
      ∃ rest,
        addEssentialCards (mapConceptsToCards b.interpretation.concepts userCards)
          (getEssentialCommunicationCards userCards) =
        mapConceptsToCards b.interpretation.concepts userCards ++ rest := by
  intro phrase u g now b h
  have hb : ∃ i, b = assembleBoard phrase u i now := by
    rcases Bool.eq_false_or_eq_true ((jsTrim phrase.data).isEmpty) with hemp | hemp
    · rw [generateContextBoard_empty hemp] at h
      simp at h
    · rcases hstage : pickStage phrase g with ⟨oi, src⟩
      cases oi with
      | none =>
        rw [generateContextBoard_uninterpretable hemp hstage] at h
        simp at h
      | some i =>
        rcases Bool.eq_false_or_eq_true (validateConcepts i.concepts) with hval | hval
        · rw [generateContextBoard_success hemp hstage hval] at h
          exact ⟨i, (Option.some.inj h).symm⟩
        · rw [generateContextBoard_invalid hemp hstage hval] at h
          simp at h
  obtain ⟨i, hbi⟩ := hb
  subst hbi
  refine ⟨?_, rfl, addEssentialCards_extends _ _⟩
  show ((addEssentialCards (mapConceptsToCards i.concepts u)
      (getEssentialCommunicationCards u)).take MAX_BOARD_SIZE).length ≤ MAX_BOARD_SIZE
  rw [List.length_take]
  exact min_le_left _ _

/-- C1 witness: a successful call on the phrase `"bogo"` with an empty
vocabulary, and the bound the theorem gives for it. -/
theorem C1_witness :
    (generateContextBoard "bogo" [] none 0).board =
      some (assembleBoard "bogo" [] bogoInterp 0) ∧
    (assembleBoard "bogo" [] bogoInterp 0).cards.length ≤ MAX_BOARD_SIZE := by
  have hb : (generateContextBoard "bogo" [] none 0).board =
      some (assembleBoard "bogo" [] bogoInterp 0) := by
    rw [generateContextBoard_success (by decide)
      (pickStage_library findPromotionMatch_bogo) (by decide)]
  exact ⟨hb, (C1_board_size_and_truncation "bogo" [] none 0 _ hb).1⟩

/-- C2: the orchestrator runs library → external → fallback strictly in
order, short-circuiting on the first result: a library hit makes the
outcome independent of the external result and tagged `library`; with
no library hit a (valid) external interpretation is used and tagged
`gemini`; with neither, the mock decides and is tagged `fallback`; and
when all three return none the call fails with `success := false`,
`source := "error"`, the uninterpretable-phrase message, and no
board. -/
theorem C2_stage_order_and_uninterpretable :
    (∀ (phrase : String) (u : List Card) (now : ℕ)
       (g : Option SemanticInterpretation) (i : SemanticInterpretation),
       (jsTrim phrase.data).isEmpty = false →
       findPromotionMatch phrase = some i →
       generateContextBoard phrase u g now =
         ContextBoardResult.mk true (some (assembleBoard phrase u i now))
           none "library") ∧
    (∀ (phrase : String) (u : List Card) (now : ℕ) (i : SemanticInterpretation),
       (jsTrim phrase.data).isEmpty = false →
       findPromotionMatch phrase = none →
       validateConcepts i.concepts = true →
       generateContextBoard phrase u (some i) now =
         ContextBoardResult.mk true (some (assembleBoard phrase u i now))
           none "gemini") ∧
    (∀ (phrase : String) (u : List Card) (now : ℕ) (j : SemanticInterpretation),
       (jsTrim phrase.data).isEmpty = false →
       findPromotionMatch phrase = none →
       getMockInterpretation phrase = some j →
       generateContextBoard phrase u none now =
         ContextBoardResult.mk true (some (assembleBoard phrase u j now))
           none "fallback") ∧
    (∀ (phrase : String) (u : List Card) (now : ℕ),
       (jsTrim phrase.data).isEmpty = false →
       findPromotionMatch phrase = none →
       getMockInterpretation phrase = none →
       generateContextBoard phrase u none now =
         ContextBoardResult.mk false none (some uninterpretableError) "error") := by
  refine ⟨?_, ?_, ?_, ?_⟩
  · intro phrase u now g i hne hlib
    exact generateContextBoard_success hne (pickStage_library hlib)
      (findPromotionMatch_valid hlib)
  · intro phrase u now i hne hlib hval
    exact generateContextBoard_success hne (pickStage_gemini hlib) hval
  · intro phrase u now j hne hlib hmock
    have hstage : pickStage phrase none = (some j, "fallback") := by
      rw [pickStage_fallback hlib, hmock]
    exact generateContextBoard_success hne hstage
      (getMockInterpretation_valid hmock)
  · intro phrase u now hne hlib hmock
    have hstage : pickStage phrase none = (none, "fallback") := by
      rw [pickStage_fallback hlib, hmock]
    exact generateContextBoard_uninterpretable hne hstage

/-- C2 witness: a library hit on `"bogo"` ignores a junk external
result; Scenario C's `"asdkjasd"` exhausts all three interpreters. -/
theorem C2_witness :
    generateContextBoard "bogo" []
        (some (SemanticInterpretation.mk "junk" [] "gemini" 1)) 0 =
      ContextBoardResult.mk true (some (assembleBoard "bogo" [] bogoInterp 0))
        none "library" ∧
    generateContextBoard "asdkjasd" [] none 0 =
      ContextBoardResult.mk false none (some uninterpretableError) "error" :=
  ⟨C2_stage_order_and_uninterpretable.1 "bogo" [] 0 _ bogoInterp (by decide)
      findPromotionMatch_bogo,
   C2_stage_order_and_uninterpretable.2.2.2 "asdkjasd" [] 0 (by decide)
      findPromotionMatch_asdkjasd getMockInterpretation_asdkjasd⟩

/-- The Scenario F reply: a quantity concept whose value is the string
`"two"`. -/
def quantityTwoStr : GeminiData :=
  GeminiData.mk "purchase" [AACConcept.mk "quantity" (.str "two")] none

/-- The mock interpretation of `"9 items"`, as a named value. -/
def mockNineItems : SemanticInterpretation :=
  SemanticInterpretation.mk "purchase"
    [AACConcept.mk "quantity" (.num 9), cS "item" "item"] "gemini" (1/2)

/-- C3: interpretations failing the shared concept validation are
treated as "no result" at their stage — the library stage never even
produces one (every library interpretation validates), and an external
reply failing validation (such as Scenario F's string-valued quantity
`"two"`) is rejected inside the adapter so the orchestrator falls
through to the mock; only a validation failure on the finally accepted
interpretation surfaces, as a validation error distinct from the
uninterpretable error, with no board created. -/
theorem C3_validation_fallthrough_and_final_error :
    (∀ (phrase : String) (th : ℚ) (i : SemanticInterpretation),
       findPromotionMatch phrase th = some i →
       validateConcepts i.concepts = true) ∧
    (∀ d : GeminiData, validateConcepts d.concepts = false →
       interpretWithGemini (some d) = none) ∧
    (interpretWithGemini (some quantityTwoStr) = none ∧
     generateContextBoard "9 items" []
         (interpretWithGemini (some quantityTwoStr)) 0 =
       ContextBoardResult.mk true
         (some (assembleBoard "9 items" [] mockNineItems 0)) none "fallback") ∧
    (∀ (phrase : String) (u : List Card) (i : SemanticInterpretation) (now : ℕ),
       (jsTrim phrase.data).isEmpty = false →
       findPromotionMatch phrase = none →
       validateConcepts i.concepts = false →
       generateContextBoard phrase u (some i) now =
         ContextBoardResult.mk false none (some validationError) "error" ∧
       validationError ≠ uninterpretableError) := by
  have hrej : ∀ d : GeminiData, validateConcepts d.concepts = false →
      interpretWithGemini (some d) = none := by
    intro d hval
    have hvg : validateGeminiResponse d = false := by
      unfold validateGeminiResponse
      rw [hval]
      rfl
    simp [interpretWithGemini, hvg]
  refine ⟨fun _ _ _ h => findPromotionMatch_valid h, hrej, ⟨?_, ?_⟩, ?_⟩
  · exact hrej quantityTwoStr (by decide)
  · rw [hrej quantityTwoStr (by decide)]
    have hstage : pickStage "9 items" none = (some mockNineItems, "fallback") := by
      rw [pickStage_fallback findPromotionMatch_nine_items,
        getMockInterpretation_nine_items]
      rfl
    exact generateContextBoard_success (by decide) hstage (by decide)
  · intro phrase u i now hne hlib hval
    exact ⟨generateContextBoard_invalid hne (pickStage_gemini hlib) hval,
      by decide⟩

/-- C3 witness: Scenario F's reply is rejected (and would surface as a
distinct validation error if it were force-accepted downstream). -/
theorem C3_witness :
    validateConcepts quantityTwoStr.concepts = false ∧
    interpretWithGemini (some quantityTwoStr) = none ∧
    generateContextBoard "asdkjasd" []
        (some (SemanticInterpretation.mk "x"
          [AACConcept.mk "quantity" (.str "two")] "gemini" 1)) 0 =
      ContextBoardResult.mk false none (some validationError) "error" :=
  ⟨by decide,
   C3_validation_fallthrough_and_final_error.2.1 quantityTwoStr (by decide),
   (C3_validation_fallthrough_and_final_error.2.2.2 "asdkjasd" [] _ 0 (by decide)
      findPromotionMatch_asdkjasd (by decide)).1⟩

/-- C7: the external adapter, composed with the `/api/interpret` route
it calls, assigns the fixed confidence 0.75 to every interpretation it
accepts — the route builds its payload with `confidence: 0.75`
regardless of the model reply's content, and the client's
`result.data.confidence || 0.75` therefore always evaluates to 0.75. -/
theorem C7_external_confidence_is_three_quarters :
    (∀ (parsed : Option GeminiParsedReply) (i : SemanticInterpretation),
       interpretWithGemini (routePOST parsed) = some i →
       i.confidence = 3/4) ∧
    interpretWithGemini (routePOST none) = none := by
  constructor
  · intro parsed i h
    cases parsed with
    | none => simp [routePOST, interpretWithGemini] at h
    | some r =>
      unfold routePOST at h
      rcases Bool.eq_false_or_eq_true (isGeminiConceptResponse r) with hr | hr
      · simp only [hr, if_true] at h
        simp only [interpretWithGemini] at h
        split at h
        · have h2 := Option.some.inj h
          rw [← h2]
          show jsOrNum (some (3/4)) (3/4) = 3/4
          unfold jsOrNum
          split
          · rfl
          · next q heq =>
            have hq : q = 3/4 := (Option.some.inj heq).symm
            rw [hq]
            split <;> rfl
        · simp at h
      · simp [hr, interpretWithGemini] at h
  · rfl

/-- A well-formed single-concept reply, for the C7 witness. -/
def demoReply : GeminiParsedReply :=
  GeminiParsedReply.mk "purchase" [cS "action" "buy"]

/-- C7 witness: a concrete accepted reply carries confidence 0.75. -/
theorem C7_witness :
    interpretWithGemini (routePOST (some demoReply)) =
      some (SemanticInterpretation.mk "purchase" [cS "action" "buy"]
        "gemini" (3/4)) ∧
    (SemanticInterpretation.mk "purchase" [cS "action" "buy"]
      "gemini" (3/4)).confidence = 3/4 := by
  have h : interpretWithGemini (routePOST (some demoReply)) =
      some (SemanticInterpretation.mk "purchase" [cS "action" "buy"]
        "gemini" (3/4)) := by
    with_unfolding_all rfl
  exact ⟨h, C7_external_confidence_is_three_quarters.1 (some demoReply) _ h⟩

/-- C6 counterexample: the mock fallback interpreter tags its
interpretations with source `"gemini"` (the code's "mark as gemini for
consistency"), not `"fallback"` as the claim states. -/
theorem C6_counterexample :
    getMockInterpretation "buy" =
      some (SemanticInterpretation.mk "purchase" [cS "action" "buy"]
        "gemini" (1/2)) ∧
    (SemanticInterpretation.mk "purchase" [cS "action" "buy"]
      "gemini" (1/2)).source ≠ "fallback" := by
  constructor
  · with_unfolding_all rfl
  · decide

/-- C6 (amended): the mock interpreter returns `none` exactly when no
check matched (percent-off pattern, `free`, `buy`, bare integer,
`item`/`product`), and otherwise an interpretation with intent
`purchase`, the accumulated concepts (the bare-integer contribution
suppressed when the percent pattern matched), source `"gemini"` and
confidence 0.5. -/
theorem C6_mock_accumulation_characterized :
    ∀ phrase : String,
      (getMockInterpretation phrase = none ↔
        (percentCapture (jsTrim (jsToLower phrase.data)) = none ∧
         jsIncludes (jsTrim (jsToLower phrase.data)) "free".data = false ∧
         jsIncludes (jsTrim (jsToLower phrase.data)) "buy".data = false ∧
         firstIntCapture (jsTrim (jsToLower phrase.data)) = none ∧
         (jsIncludes (jsTrim (jsToLower phrase.data)) "item".data ||
          jsIncludes (jsTrim (jsToLower phrase.data)) "product".data) = false)) ∧
      (∀ i, getMockInterpretation phrase = some i →
        i = SemanticInterpretation.mk "purchase"
          (mockConcepts (jsTrim (jsToLower phrase.data))) "gemini" (1/2)) := by
  intro phrase
  constructor
  · constructor
    · intro h
      rw [getMockInterpretation_eq] at h
      rcases Bool.eq_false_or_eq_true
          ((mockConcepts (jsTrim (jsToLower phrase.data))).isEmpty) with hemp | hemp
      · exact (mockConcepts_eq_nil_iff _).mp (List.isEmpty_iff.mp hemp)
      · simp [hemp] at h
    · intro hconds
      have hnil := (mockConcepts_eq_nil_iff _).mpr hconds
      rw [getMockInterpretation_eq, hnil]
      rfl
  · intro i h
    rw [getMockInterpretation_eq] at h
    rcases Bool.eq_false_or_eq_true
        ((mockConcepts (jsTrim (jsToLower phrase.data))).isEmpty) with hemp | hemp
    · rw [hemp] at h
      simp at h
    · simp only [hemp, Bool.false_eq_true, if_false] at h
      exact (Option.some.inj h).symm

/-- C6 witness: the phrase `"buy"` exercises the `some` case of the
characterization. -/
theorem C6_witness :
    getMockInterpretation "buy" =
      some (SemanticInterpretation.mk "purchase" [cS "action" "buy"]
        "gemini" (1/2)) ∧
    SemanticInterpretation.mk "purchase" [cS "action" "buy"] "gemini" (1/2) =
      SemanticInterpretation.mk "purchase"
        (mockConcepts (jsTrim (jsToLower "buy".data))) "gemini" (1/2) := by
  have h : getMockInterpretation "buy" =
      some (SemanticInterpretation.mk "purchase" [cS "action" "buy"]
        "gemini" (1/2)) := by
    with_unfolding_all rfl
  exact ⟨h, (C6_mock_accumulation_characterized "buy").2 _ h⟩

/-- The first scan of `findMatchingCard` is a single `find?` over the
per-card exact-or-containment test. -/
lemma findMatchingCardScan_eq_find (ct vs : String) :
    ∀ l : List Card,
      findMatchingCardScan ct vs l =
        l.find? fun card =>
          decide (jsToLowerS card.text = ct) ||
          (decide (jsToLowerS card.text = vs) ||
           jsIncludes (jsToLowerS card.text).data vs.data) := by
  intro l
  induction l with
  | nil => rfl
  | cons card rest ih =>
    rw [findMatchingCardScan, List.find?_cons]
    by_cases h1 : jsToLowerS card.text = ct
    · simp [h1]
    · by_cases h2 : jsToLowerS card.text = vs
      · simp [h1, h2]
      · rcases Bool.eq_false_or_eq_true
            (jsIncludes (jsToLowerS card.text).data vs.data) with h3 | h3 <;>
          simp [h1, h2, h3, ih]

/-- The synonym pass of `findMatchingCard` is a single `find?` over the
synonym-membership test. -/
lemma findSynonymScan_eq_find (ms : List String) :
    ∀ l : List Card,
      findSynonymScan ms l =
        l.find? fun card => ms.contains (jsToLowerS card.text) := by
  intro l
  induction l with
  | nil => rfl
  | cons card rest ih =>
    rw [findSynonymScan, List.find?_cons]
    rcases Bool.eq_false_or_eq_true (ms.contains (jsToLowerS card.text)) with h | h
    · rw [h]
      simp
    · rw [h, ih]
      simp

/-- C5 (amended): the vocabulary search is a single pass in vocabulary
order testing, per card, the exact text match or the containment check
against the normalized concept value — the first card passing either
wins, so an earlier containment match beats a later exact match — and
the synonym table is consulted, again in vocabulary order, only when
that pass found nothing; when the first exact-or-containment hit is the
`"Buy"` card, its id is reused instead of fabricating a temporary
card. -/
theorem C5_per_card_matching_order :
    (∀ (concept : AACConcept) (userCards : List Card),
       findMatchingCard concept userCards =
         match userCards.find? (fun card =>
             decide (jsToLowerS card.text = jsToLowerS (getTextForConcept concept)) ||
             (decide (jsToLowerS card.text = valueStrC concept) ||
              jsIncludes (jsToLowerS card.text).data (valueStrC concept).data)) with
         | some card => some card
         | none =>
           match commonMappings (jsToLowerS (jsValueToString concept.value)) with
           | some mappings =>
             userCards.find? fun card => mappings.contains (jsToLowerS card.text)
           | none => none) ∧
    mapConceptsToCards [cS "action" "buy"]
        [Card.mk 7 "Buy" "B" "c" "col" false none none] =
      [Card.mk 7 "Buy" "B" "c" "col" false none none] := by
  constructor
  · intro concept userCards
    unfold findMatchingCard
    rw [findMatchingCardScan_eq_find]
    cases userCards.find? (fun card =>
        decide (jsToLowerS card.text = jsToLowerS (getTextForConcept concept)) ||
        (decide (jsToLowerS card.text = valueStrC concept) ||
         jsIncludes (jsToLowerS card.text).data (valueStrC concept).data)) with
    | some card => rfl
    | none =>
      cases commonMappings (jsToLowerS (jsValueToString concept.value)) with
      | some ms => exact findSynonymScan_eq_find ms userCards
      | none => rfl
  · decide

/-- C5 counterexample: with a vocabulary whose first card `"buyer
stuff"` matches by containment and whose second card is exactly
`"Buy"`, the mapper returns the first card — the exact `"Buy"` match is
not preferred over the earlier containment match, contradicting the
claimed strategy priority. -/
theorem C5_counterexample :
    mapConceptsToCards [cS "action" "buy"]
        [Card.mk 1 "buyer stuff" "" "c" "col" false none none,
         Card.mk 2 "Buy" "" "c" "col" false none none] =
      [Card.mk 1 "buyer stuff" "" "c" "col" false none none] ∧
    (Card.mk 1 "buyer stuff" "" "c" "col" false none none).text ≠ "Buy" ∧
    (Card.mk 2 "Buy" "" "c" "col" false none none).text = "Buy" := by
  refine ⟨by decide, by decide, rfl⟩

/-- C9 counterexample: a vocabulary card with the negative id −1 can be
reused and then collide with the first temporary id −1, so the result
carries two entries with the same negative id. -/
theorem C9_counterexample :
    (mapConceptsToCards [cS "action" "buy", cS "payment" "pay_for_one"]
        [Card.mk (-1) "Buy" "B" "c" "col" false none none]).map
      (fun c => c.id) = [-1, -1] ∧
    ¬ ((mapConceptsToCards [cS "action" "buy", cS "payment" "pay_for_one"]
        [Card.mk (-1) "Buy" "B" "c" "col" false none none]).map
      (fun c => c.id)).Nodup := by
  constructor
  · decide
  · decide

/-- C9 (amended): provided no vocabulary card carries a negative id (as
for cards persisted by the store, whose ids are positive), the mapper
returns no two entries with the same id — reused cards are deduplicated
by the id guard, and temporary ids walk strictly down from −1, so they
are pairwise distinct and cannot collide with the non-negative
vocabulary ids. -/
theorem C9_ids_nodup_amended :
    ∀ (concepts : List AACConcept) (userCards : List Card),
      (∀ c ∈ userCards, 0 ≤ c.id) →
      ((mapConceptsToCards concepts userCards).map (fun c => c.id)).Nodup := by
  intro concepts u hu
  unfold mapConceptsToCards
  exact mapConceptsGo_ids_nodup hu concepts [] (-1) (by omega) (by simp) (by simp)

/-- C9 witness: a positive-id vocabulary yields distinct ids `[1, -1]`. -/
theorem C9_witness :
    (∀ c ∈ [Card.mk 1 "Buy" "B" "c" "col" false none none], 0 ≤ c.id) ∧
    ((mapConceptsToCards [cS "action" "buy", cS "payment" "pay_for_one"]
        [Card.mk 1 "Buy" "B" "c" "col" false none none]).map
      (fun c => c.id)).Nodup :=
  ⟨by decide, C9_ids_nodup_amended _ _ (by decide)⟩

/-- A vocabulary with two different cards sharing one id. -/
def dupIdVocab : List Card :=
  [Card.mk 5 "Yes" "y" "c" "col" false none none,
   Card.mk 5 "No" "n" "c" "col" false none none]

/-- An accepted external interpretation with no concepts. -/
def emptyConceptsInterp : SemanticInterpretation :=
  SemanticInterpretation.mk "information" [] "gemini" (3/4)

/-- C10 counterexample: with an empty-concept interpretation and a
vocabulary holding two essential cards that share an id, the board's
cards are the id-deduplicated essentials, not "exactly the essential
cards matched from the user's vocabulary". -/
theorem C10_counterexample :
    (generateContextBoard "asdkjasd" dupIdVocab (some emptyConceptsInterp)
        0).board.map (fun b => b.cards) =
      some [Card.mk 5 "Yes" "y" "c" "col" false none none] ∧
    getEssentialCommunicationCards dupIdVocab =
      [Card.mk 5 "Yes" "y" "c" "col" false none none,
       Card.mk 5 "No" "n" "c" "col" false none none] ∧
    ([Card.mk 5 "Yes" "y" "c" "col" false none none] : List Card) ≠
      [Card.mk 5 "Yes" "y" "c" "col" false none none,
       Card.mk 5 "No" "n" "c" "col" false none none] := by
  refine ⟨?_, by decide, by decide⟩
  rw [generateContextBoard_success (by decide)
    (pickStage_gemini findPromotionMatch_asdkjasd) (by decide)]
  show some (assembleBoard "asdkjasd" dupIdVocab emptyConceptsInterp 0).cards = _
  have : (assembleBoard "asdkjasd" dupIdVocab emptyConceptsInterp 0).cards =
      [Card.mk 5 "Yes" "y" "c" "col" false none none] := by decide
  rw [this]

/-- C10 (amended): an accepted interpretation with an empty concept
list — reachable only through the external stage, since the library
matcher and the mock fallback never return empty concepts — passes the
(vacuous) shared validation, and `generateContextBoard` succeeds with a
board whose cards are exactly the essential cards matched from the
vocabulary, deduplicated by id (hence possibly zero cards). -/
theorem C10_empty_concepts_board :
    (∀ (phrase : String) (th : ℚ) (i : SemanticInterpretation),
       findPromotionMatch phrase th = some i → i.concepts ≠ []) ∧
    (∀ (phrase : String) (i : SemanticInterpretation),
       getMockInterpretation phrase = some i → i.concepts ≠ []) ∧
    validateConcepts [] = true ∧
    (∀ (phrase : String) (u : List Card) (i : SemanticInterpretation) (now : ℕ),
       (jsTrim phrase.data).isEmpty = false →
       findPromotionMatch phrase = none →
       i.concepts = [] →
       generateContextBoard phrase u (some i) now =
         ContextBoardResult.mk true (some (assembleBoard phrase u i now))
           none "gemini" ∧
       (assembleBoard phrase u i now).cards =
         addEssentialCards [] (getEssentialCommunicationCards u)) := by
  refine ⟨fun _ _ _ h => findPromotionMatch_concepts_ne_nil h,
    fun _ _ h => getMockInterpretation_concepts_ne_nil h, by decide, ?_⟩
  intro phrase u i now hne hlib hcon
  have hval : validateConcepts i.concepts = true := by
    rw [hcon]
    decide
  refine ⟨generateContextBoard_success hne (pickStage_gemini hlib) hval, ?_⟩
  show (addEssentialCards (mapConceptsToCards i.concepts u)
      (getEssentialCommunicationCards u)).take MAX_BOARD_SIZE = _
  rw [hcon]
  have hmap : mapConceptsToCards [] u = [] := rfl
  rw [hmap]
  apply List.take_of_length_le
  have h1 := addEssentialCards_length_le (getEssentialCommunicationCards u) []
  have h2 := getEssentialCommunicationCards_length_le u
  simp only [List.length_nil] at h1
  show _ ≤ MAX_BOARD_SIZE
  unfold MAX_BOARD_SIZE
  omega

/-- C10 witness: the conditional branch exercised at a concrete input
with one matching essential. -/
theorem C10_witness :
    generateContextBoard "asdkjasd"
        [Card.mk 1 "Yes" "y" "c" "col" false none none]
        (some emptyConceptsInterp) 0 =
      ContextBoardResult.mk true
        (some (assembleBoard "asdkjasd"
          [Card.mk 1 "Yes" "y" "c" "col" false none none]
          emptyConceptsInterp 0)) none "gemini" ∧
    (assembleBoard "asdkjasd" [Card.mk 1 "Yes" "y" "c" "col" false none none]
      emptyConceptsInterp 0).cards =
      addEssentialCards []
        (getEssentialCommunicationCards
          [Card.mk 1 "Yes" "y" "c" "col" false none none]) :=
  C10_empty_concepts_board.2.2.2 "asdkjasd" _ emptyConceptsInterp 0 (by decide)
    findPromotionMatch_asdkjasd rfl
